import Mathlib

/-!
Verification development for the `json_to_csv` sponsorship-exposure report
generator (`src/app.py`).  The normalization and aggregation engine is
shallowly embedded: Python strings are `List Char`, Python floats are `ℚ`
(exact rational arithmetic; binary-float rounding artifacts are outside the
model), Python dicts are insertion-ordered association lists, and code paths
that raise exceptions are modelled with `Option`/`Except`.
-/

section AppEmbedding

attribute [local semireducible] Rat.add Rat.mul Rat.sub Rat.inv

/-- Python strings are modelled as lists of characters. -/
abbrev Str := List Char

/-- ASCII uppercase letter test (codepoints 65–90). -/
def isUp (c : Char) : Bool := 65 ≤ c.toNat && c.toNat ≤ 90

/-- ASCII lowercase letter test (codepoints 97–122). -/
def isLo (c : Char) : Bool := 97 ≤ c.toNat && c.toNat ≤ 122

/-- The character class `[A-Za-z]` used by the regexes in `app.py`. -/
def isAl (c : Char) : Bool := isUp c || isLo c

/-- The character class `\d` (ASCII digits) used by the regexes in `app.py`. -/
def isDig (c : Char) : Bool := 48 ≤ c.toNat && c.toNat ≤ 57

/-- ASCII lowercasing of one character, as Python `str.lower` acts on the
ASCII range (the inputs of this application; other scripts are not modelled). -/
def lowerChar (c : Char) : Char := if isUp c then Char.ofNat (c.toNat + 32) else c

/-- ASCII uppercasing of one character (Python `str.upper` on the ASCII range). -/
def upperChar (c : Char) : Char := if isLo c then Char.ofNat (c.toNat - 32) else c

/-- Python `str.lower()`. -/
def lowerStr (s : Str) : Str := s.map lowerChar

/-- Python whitespace characters stripped by `str.strip()` (ASCII range). -/
def isPySpace (c : Char) : Bool :=
  c == ' ' || c == '\t' || c == '\n' || c == '\r' || c == '\x0b' || c == '\x0c'

/-- Python `str.strip()`: remove leading and trailing whitespace. -/
def pyStrip (s : Str) : Str :=
  ((s.dropWhile isPySpace).reverse.dropWhile isPySpace).reverse

/-- Python `s.replace(' ', '')`: remove every space character. -/
def despace (s : Str) : Str := s.filter (fun c => !(c == ' '))

/-- The decimal digit character for `d < 10` (as produced by Python number
formatting). -/
def digitChar (d : Nat) : Char := Char.ofNat (48 + d)

/-- Decimal digit value of a digit character (used to model `int()`). -/
def digVal (c : Char) : Nat := c.toNat - 48

/-- Decimal rendering of a natural number, most significant digit first.
The first argument is fuel bounding the recursion depth; `natToChars`
supplies `n + 1`, which always suffices. -/
def natToCharsGo : Nat → Nat → Str
  | 0, _ => []
  | fuel + 1, n =>
    if n < 10 then [digitChar n] else natToCharsGo fuel (n / 10) ++ [digitChar (n % 10)]

/-- Decimal rendering of a natural number (Python `str`/`format` of a
non-negative int). -/
def natToChars (n : Nat) : Str := natToCharsGo (n + 1) n

/-- Python `f"{n:02d}"` for a non-negative value: pad to two digits. -/
def pad2 (n : Nat) : Str := if n < 10 then '0' :: natToChars n else natToChars n

/-- Python `f"{i:02d}"` for any int: a negative value renders as a sign
followed by its digits (the sign already fills the field width of 2). -/
def fmt02 (i : Int) : Str :=
  if i < 0 then '-' :: natToChars i.natAbs else pad2 i.toNat

/-- Python `int()` on a string: succeeds exactly on (all-digit, non-empty)
strings in the shapes this program produces; `none` models the `ValueError`
raised otherwise. -/
def parseNat? (s : Str) : Option Nat :=
  if s.isEmpty || !s.all isDig then none
  else some (s.foldl (fun a c => a * 10 + digVal c) 0)

/-- Python `str.split(sep)` for a one-character separator. -/
def splitOnChar (sep : Char) : Str → List Str
  | [] => [[]]
  | c :: rest =>
    if c == sep then [] :: splitOnChar sep rest
    else
      match splitOnChar sep rest with
      | [] => [[c]]
      | t :: ts => (c :: t) :: ts

/-- `ms_to_hhmmss` (app.py lines 25–30): ceiling to whole seconds, the empty
string for zero, otherwise `HH:MM:SS` via `divmod` (Python floor
division/modulus, hence `Int.fdiv`/`Int.fmod`). -/
def ms_to_hhmmss (total_ms : ℚ) : Str :=
  let total_s : Int := ⌈total_ms / 1000⌉
  if total_s = 0 then []
  else
    fmt02 (Int.fdiv total_s 3600) ++ ':' ::
      fmt02 (Int.fdiv (Int.fmod total_s 3600) 60) ++ ':' ::
        fmt02 (Int.fmod (Int.fmod total_s 3600) 60)

/-- The local `parse_ms` helper of `build_aggregate_df` (app.py lines
119–122): the empty string parses to `0`; otherwise the string is split on
`':'` and must yield exactly three int-parseable fields (`none` models the
uncaught `ValueError` on any other shape; in the program the argument is
always a string, and non-strings are not modelled). -/
def parse_ms (hms : Str) : Option Nat :=
  if hms.isEmpty then some 0
  else
    match splitOnChar ':' hms with
    | [hs, ms, ss] =>
      match parseNat? hs, parseNat? ms, parseNat? ss with
      | some h, some m, some s => some ((h * 3600 + m * 60 + s) * 1000)
      | _, _, _ => none
    | _ => none

/-- Python `f"{x:.2f}"` on the exact rational value of `x`: round to a whole
number of hundredths and print with two decimals.  Ties round half up here;
CPython rounds the underlying binary double half-even, which agrees on every
value this program formats in the verified claims. -/
def fmt2 (x : ℚ) : Str :=
  let n : Int := ⌊x * 100 + 1 / 2⌋
  let m : Nat := n.natAbs
  if n < 0 then '-' :: natToChars (m / 100) ++ '.' :: pad2 (m % 100)
  else natToChars (m / 100) ++ '.' :: pad2 (m % 100)

/-- Python `x.strip('%')`: remove `'%'` characters from both ends. -/
def stripPctChars (s : Str) : Str :=
  ((s.dropWhile (fun c => c == '%')).reverse.dropWhile (fun c => c == '%')).reverse

/-- Python `float()` as applied by `build_aggregate_df` to the decimal
strings the report builders emit (optional sign, digits, optional fractional
part); `none` models the `ValueError` on other inputs (scientific notation
and other `float()` spellings never occur here and are not modelled). -/
def parseUFloat? (s : Str) : Option ℚ :=
  match splitOnChar '.' s with
  | [a] => (parseNat? a).map (fun n => (n : ℚ))
  | [a, b] =>
    match parseNat? a, parseNat? b with
    | some n, some f => some ((n : ℚ) + (f : ℚ) / ((10 ^ b.length : Nat) : ℚ))
    | _, _ => none
  | _ => none

/-- Signed variant of `parseUFloat?` (see there). -/
def parseFloat? (s : Str) : Option ℚ :=
  match s with
  | '-' :: rest => (parseUFloat? rest).map (fun q => -q)
  | _ => parseUFloat? s

/-- Configuration alias map (`config.yaml` `Periods`/`Placements`): a Python
dict from canonical name to alias list, modelled as an insertion-ordered
association list (dict iteration order). -/
abbrev AliasMap := List (Str × List Str)

/-- One iteration of the loop in `normalize_with_map` (app.py lines 34–35):
does the stripped value case-insensitively equal the canonical name or one
of its aliases? -/
def aliasMatches (v0 : Str) (e : Str × List Str) : Bool :=
  lowerStr v0 == lowerStr e.1 || e.2.any (fun a => lowerStr v0 == lowerStr a)

/-- The first alias-map entry matching `v0`, if any (the `for` loop over
`mapping.items()` returns on the first hit). -/
def findAlias (v0 : Str) : AliasMap → Option (Str × List Str)
  | [] => none
  | e :: rest => if aliasMatches v0 e then some e else findAlias v0 rest

/-- `normalize_with_map` (app.py lines 32–37): strip the value, return the
first case-insensitively matching canonical name, else the original value. -/
def normalize_with_map (value : Str) (mapping : AliasMap) : Str :=
  match findAlias (pyStrip value) mapping with
  | some e => e.1
  | none => value

/-- Anchored match of `^(\d+)X$` where `X` ranges over the given literal
suffix alternatives: since the alternatives start with letters, the regex is
equivalent to taking the maximal leading digit run (non-empty) and requiring
the remainder to equal one alternative exactly. Returns the digit run. -/
def matchNumSuffix (suffixes : List Str) (p0 : Str) : Option Str :=
  let ds := p0.takeWhile isDig
  let rest := p0.dropWhile isDig
  if !ds.isEmpty && suffixes.any (fun s => rest == s) then some ds else none

/-- One scan step of `re.sub(r"(\d+)([A-Za-z]+)", r"\1 \2", s)` on a
space-free string: the substitution exactly inserts one space between every
digit that is immediately followed by an ASCII letter (the non-overlapping
left-to-right scan touches each digit/letter boundary once and copies the
matched characters otherwise). -/
def subDigitsLetters : Str → Str
  | [] => []
  | [c] => [c]
  | c :: d :: rest =>
    if isDig c && isAl d then c :: ' ' :: subDigitsLetters (d :: rest)
    else c :: subDigitsLetters (d :: rest)

/-- Character transformation of Python `str.title()`: a cased character is
uppercased when the previous character is not a letter, lowercased
otherwise (ASCII range; `cased` = ASCII letter for this program's data). -/
def titleMap (prevAlpha : Bool) (c : Char) : Char :=
  if isAl c then (if prevAlpha then lowerChar c else upperChar c) else c

/-- Worker of `title`, carrying whether the previous character was a letter. -/
def titleGo (prevAlpha : Bool) : Str → Str
  | [] => []
  | c :: rest => titleMap prevAlpha c :: titleGo (isAl c) rest

/-- Python `str.title()`. -/
def title (s : Str) : Str := titleGo false s

/-- `normalize_period` (app.py lines 39–48).  The config stage returns only
when `normalize_with_map` produced a string different from the raw input;
then the two anchored regexes are tried on the space-free lowercased input;
the final fallback spaces out digit/letter boundaries and title-cases. -/
def normalize_period (period_map : AliasMap) (p : Str) : Str :=
  let np_ := normalize_with_map p period_map
  if np_ ≠ p then np_
  else
    let p0 := lowerStr (despace p)
    match matchNumSuffix ["t".data, "top".data] p0 with
    | some ds => ds ++ " Top".data
    | none =>
      match matchNumSuffix ["b".data, "bot".data, "bottom".data] p0 with
      | some ds => ds ++ " Bottom".data
      | none => title (subDigitsLetters (despace p))

/-- `normalize_placement` (app.py lines 50–51). -/
def normalize_placement (placement_map : AliasMap) (pl : Str) : Str :=
  normalize_with_map pl placement_map

/-- `os.path.splitext(name)[0]` for a path without separators: cut at the
last dot, unless every character before that dot is itself a dot (leading
dots of the name do not start an extension). -/
def splitextBase (name : Str) : Str :=
  if name.any (fun c => c == '.') then
    let i := name.length - 1 - name.reverse.findIdx (fun c => c == '.')
    if (name.take i).any (fun c => !(c == '.')) then name.take i else name
  else name

/-- `re.sub(r"\(\d+\)$", "", base)`: drop one trailing `(digits)` group. -/
def stripParenSuffix (base : Str) : Str :=
  match base.reverse with
  | ')' :: rest =>
    let ds := rest.takeWhile isDig
    match rest.dropWhile isDig with
    | '(' :: rest3 => if ds.isEmpty then base else rest3.reverse
    | _ => base
  | _ => base

/-- `normalize_sponsor` (app.py lines 53–55). -/
def normalize_sponsor (name : Str) : Str := stripParenSuffix (splitextBase name)

/-- Lookup in an insertion-ordered association list (Python `dict` access /
`.get`). -/
def dfind? {K V : Type} [DecidableEq K] : List (K × V) → K → Option V
  | [], _ => none
  | e :: rest, k => if e.1 = k then some e.2 else dfind? rest k

/-- Python `d[k] = v` on an insertion-ordered dict: overwrite in place if the
key exists, else append (also the effect of `setdefault` plus mutation). -/
def dset {K V : Type} [DecidableEq K] : List (K × V) → K → V → List (K × V)
  | [], k, v => [(k, v)]
  | e :: rest, k, v => if e.1 = k then (k, v) :: rest else e :: dset rest k v

/-- A record of the input `Logos` array.  `Placement` is `Option` because the
code reads it with `l.get('Placement','')`. -/
structure LogoRecord where
  FileName : Str
  GroupId : Int
  Placement : Option Str
deriving DecidableEq

/-- A record of the input `Shots` array.  `Duration`/`ScreenPercentage` are
`Option` because the code reads them with `.get(..., 0)`. -/
structure ShotRecord where
  FileName : Str
  GroupId : Int
  Period : Str
  Duration : Option ℚ
  ScreenPercentage : Option ℚ
deriving DecidableEq

/-- One parsed JSON input document.  `GameId` is `none` when
`data['GameInfo']['GameId']` would raise (missing key); `Logos`/`Shots` are
`none` when the key is absent (the code reads them with `data.get(...,[])`). -/
structure InputDoc where
  GameId : Option Str
  Logos : Option (List LogoRecord)
  Shots : Option (List ShotRecord)
deriving DecidableEq

/-- The composite join key `(FileName, GroupId)`. -/
abbrev SKey := Str × Int

/-- The per-identity / per-sponsor accumulator dict literal
`{'count':0,'dur_ms':0.0,'screen_sum':0.0,'periods':{}}`. -/
structure Stats where
  count : Nat
  dur_ms : ℚ
  screen_sum : ℚ
  periods : List (Str × ℚ)
deriving DecidableEq

/-- The zero accumulator (both the `setdefault` default and the effective
value of `stats.get(key, {})` read through `.get(field, 0)`). -/
def zeroStats : Stats := ⟨0, 0, 0, []⟩

/-- The `logos` dict comprehension of `process_data` (app.py lines 69–72):
key `(FileName, GroupId)`, value the normalized placement; a repeated key
keeps its first position and the last value, as in a Python dict. -/
def logosDict (plm : AliasMap) (logos : List LogoRecord) : List (SKey × Str) :=
  logos.foldl
    (fun d l => dset d (l.FileName, l.GroupId) (normalize_placement plm (l.Placement.getD [])))
    []

/-- One iteration of the shot loop of `process_data` (app.py lines 74–83):
an orphan key is skipped; otherwise the normalized period is added to the
period set (modelled as an insertion-ordered duplicate-free list) and the
identity accumulator is updated. -/
def shotStep (pm : AliasMap) (logos : List (SKey × Str))
    (st : List (SKey × Stats) × List Str) (shot : ShotRecord) :
    List (SKey × Stats) × List Str :=
  match dfind? logos (shot.FileName, shot.GroupId) with
  | none => st
  | some _ =>
    let period := normalize_period pm shot.Period
    let periods := if period ∈ st.2 then st.2 else st.2 ++ [period]
    let ent := (dfind? st.1 (shot.FileName, shot.GroupId)).getD zeroStats
    let ent2 : Stats :=
      { count := ent.count + 1
        dur_ms := ent.dur_ms + shot.Duration.getD 0
        screen_sum := ent.screen_sum + shot.ScreenPercentage.getD 0
        periods := dset ent.periods period
          ((dfind? ent.periods period).getD 0 + shot.Duration.getD 0) }
    (dset st.1 (shot.FileName, shot.GroupId) ent2, periods)

/-- Key-wise merge of one identity's stats into a sponsor bucket (app.py
lines 90–94). -/
def addStats (agg s : Stats) : Stats :=
  { count := agg.count + s.count
    dur_ms := agg.dur_ms + s.dur_ms
    screen_sum := agg.screen_sum + s.screen_sum
    periods := s.periods.foldl (fun d e => dset d e.1 ((dfind? d e.1).getD 0 + e.2)) agg.periods }

/-- One iteration of the sponsor aggregation loop of `process_data` (app.py
lines 85–94), acting on one `(key, placement)` entry of the logos dict. -/
def sponsorFold (stats : List (SKey × Stats))
    (sp : List ((Str × Str) × Stats)) (e : SKey × Str) : List ((Str × Str) × Stats) :=
  let s := (dfind? stats e.1).getD zeroStats
  let key := (normalize_sponsor e.1.1, e.2)
  dset sp key (addStats ((dfind? sp key).getD zeroStats) s)

/-- `process_data` (app.py lines 68–95): returns the sponsor-stats dict and
the set of observed normalized periods (insertion-ordered; Python's
arbitrary set iteration order is not modelled — no claim depends on it). -/
def process_data (pm plm : AliasMap) (data : InputDoc) :
    List ((Str × Str) × Stats) × List Str :=
  let logos := logosDict plm (data.Logos.getD [])
  let stp := (data.Shots.getD []).foldl (shotStep pm logos) (([], []) : List (SKey × Stats) × List Str)
  (logos.foldl (sponsorFold stp.1) [], stp.2)

/-- One row of a per-game report table, with one period cell per requested
period column. -/
structure Row where
  Placement : Str
  Sponsor : Str
  TotalShots : Nat
  TotalDuration : Str
  AvgScreen : Str
  periodCells : List (Str × Str)
deriving DecidableEq

/-- The row dict built for one non-zero sponsor bucket (app.py lines
104–113).  `math.ceil` of the integer count is the count itself, kept as
`Nat`. -/
def mkRow (periods : List Str) (e : (Str × Str) × Stats) : Row :=
  { Placement := e.1.2
    Sponsor := e.1.1
    TotalShots := e.2.count
    TotalDuration := ms_to_hhmmss e.2.dur_ms
    AvgScreen := fmt2 (e.2.screen_sum / (e.2.count : ℚ)) ++ "%".data
    periodCells := periods.map (fun per => (per, ms_to_hhmmss ((dfind? e.2.periods per).getD 0))) }

/-- `build_individual_df` (app.py lines 99–115): one row per sponsor bucket
in dict order, skipping buckets whose count is 0. -/
def build_individual_df (sponsor_stats : List ((Str × Str) × Stats)) (periods : List Str) :
    List Row :=
  sponsor_stats.foldl (fun rows e => if e.2.count = 0 then rows else rows ++ [mkRow periods e]) []

/-- A period cell of a table row.  `df[per]` after the column fix-up of
`build_aggregate_df` (app.py lines 124–125): a column absent from the
per-game table is added filled with `''`. -/
def cellOf (r : Row) (per : Str) : Str := (dfind? r.periodCells per).getD []

/-- The rows of one game's table falling in one `groupby('Placement')`
group. -/
def rowsFor (t : List Row) (pl : Str) : List Row := t.filter (fun r => r.Placement = pl)

/-- Whether a game's table contains the placement at all (only then does the
game produce a `grp` row for it). -/
def gameHas (t : List Row) (pl : Str) : Bool := !(rowsFor t pl).isEmpty

/-- `sum(parse_ms(x) for x in col)`: `none` models the exception if any cell
fails to parse. -/
def sumMs : List Str → Option Nat
  | [] => some 0
  | c :: rest =>
    match parse_ms c, sumMs rest with
    | some v, some s => some (v + s)
    | _, _ => none

/-- `sum(float(x.strip('%')) for x in col)` over `Avg Screen %` cells. -/
def sumPct : List Str → Option ℚ
  | [] => some 0
  | c :: rest =>
    match parseFloat? (stripPctChars c), sumPct rest with
    | some v, some s => some (v + s)
    | _, _ => none

/-- Per-game, per-placement `'Total Shots':'sum'` aggregation. -/
def gameShots (t : List Row) (pl : Str) : Nat :=
  ((rowsFor t pl).map Row.TotalShots).sum

/-- Per-game, per-placement total-duration aggregation (parse then sum). -/
def gameDurMs (t : List Row) (pl : Str) : Option Nat :=
  sumMs ((rowsFor t pl).map Row.TotalDuration)

/-- Per-game, per-placement screen aggregation: arithmetic mean of the
parsed `Avg Screen %` cells over the sponsor rows of the group (app.py line
129). -/
def gameScreenAvg (t : List Row) (pl : Str) : Option ℚ :=
  (sumPct ((rowsFor t pl).map Row.AvgScreen)).map
    (fun s => s / (((rowsFor t pl).length : Nat) : ℚ))

/-- Per-game, per-placement accumulated duration of one period column
(app.py line 132; every cell in this model is a string, so the
`isinstance(x,str)` guard always holds). -/
def gamePeriodMs (t : List Row) (pl per : Str) : Option Nat :=
  sumMs ((rowsFor t pl).map (fun r => cellOf r per))

/-- The tables of the games that contain the placement, in upload order:
exactly the games contributing entries to `placement_acc[pl]`. -/
def gamesWith (tables : List (Str × List Row)) (pl : Str) : List (List Row) :=
  (tables.map Prod.snd).filter (fun t => gameHas t pl)

/-- Sequence a list of optional values (exception propagation of the
comprehensions in `build_aggregate_df`). -/
def seqOpt {α : Type} : List (Option α) → Option (List α)
  | [] => some []
  | o :: rest => o.bind (fun v => (seqOpt rest).map (fun l => v :: l))

/-- The `Avg Shots` cell of the aggregate row for a placement (app.py line
144): `math.ceil` of the mean of the per-game shot totals. -/
def aggShotsCell (tables : List (Str × List Row)) (pl : Str) : Option Nat :=
  let gs := gamesWith tables pl
  if gs.isEmpty then none
  else some (⌈(((gs.map (fun t => gameShots t pl)).sum : Nat) : ℚ) / ((gs.length : Nat) : ℚ)⌉.toNat)

/-- The `Avg Total Duration` cell of the aggregate row (app.py lines 145,
150). -/
def aggDurCell (tables : List (Str × List Row)) (pl : Str) : Option Str :=
  let gs := gamesWith tables pl
  if gs.isEmpty then none
  else
    (seqOpt (gs.map (fun t => gameDurMs t pl))).map
      (fun durs => ms_to_hhmmss (((durs.sum : Nat) : ℚ) / ((gs.length : Nat) : ℚ)))

/-- The `Avg Screen %` cell of the aggregate row (app.py lines 146, 151):
the unweighted mean over the contributing games of the per-game means. -/
def aggScreenCell (tables : List (Str × List Row)) (pl : Str) : Option Str :=
  let gs := gamesWith tables pl
  if gs.isEmpty then none
  else
    (seqOpt (gs.map (fun t => gameScreenAvg t pl))).map
      (fun scrs => fmt2 (scrs.sum / ((gs.length : Nat) : ℚ)) ++ "%".data)

/-- The `Avg <period>` cell of the aggregate row (app.py lines 138–140,
153–155): only strictly positive per-game accumulated durations enter the
mean; with none, the literal string `00:00:00`. -/
def aggPeriodCell (tables : List (Str × List Row))
    (pl per : Str) : Option Str :=
  let gs := gamesWith tables pl
  if gs.isEmpty then none
  else
    (seqOpt (gs.map (fun t => gamePeriodMs t pl per))).map
      (fun vs =>
        let lst := vs.filter (fun v => 0 < v)
        if lst.isEmpty then "00:00:00".data
        else ms_to_hhmmss (((lst.sum : Nat) : ℚ) / ((lst.length : Nat) : ℚ)))

/-- One row of `build_aggregate_df` (app.py lines 117–158), for placements
occurring in at least one game.  Row order across placements (pandas
group-key order) is not modelled — every claim is about a single row's
cells — and each cell carries its own `Option` where the source would let
one `ValueError` abort the whole build. -/
structure AggRow where
  Placement : Str
  AvgShots : Option Nat
  AvgTotalDuration : Option Str
  AvgScreen : Option Str
  periodCells : List (Str × Option Str)
deriving DecidableEq

/-- Assemble the aggregate row of one placement (see `AggRow`). -/
def build_aggregate_row (tables : List (Str × List Row)) (periods : List Str)
    (pl : Str) : Option AggRow :=
  if (gamesWith tables pl).isEmpty then none
  else
    some
      { Placement := pl
        AvgShots := aggShotsCell tables pl
        AvgTotalDuration := aggDurCell tables pl
        AvgScreen := aggScreenCell tables pl
        periodCells := periods.map (fun per => (per, aggPeriodCell tables pl per)) }

/-- One upload in the `Generate` loop of `main` (app.py lines 219–250):
either bytes that fail `json.loads` or a parsed document. -/
inductive Upload where
  | badJson : Upload
  | doc : InputDoc → Upload
deriving DecidableEq

/-- `gid.replace(' ', '_')` (app.py line 230). -/
def gidSan (g : Str) : Str := g.map (fun c => if c = ' ' then '_' else c)

/-- The per-upload loop of `main`'s `Generate` branch (app.py lines
219–250): unparseable JSON is reported (`st.error`) and skipped; a parsed
document missing `GameInfo`/`GameId` raises an uncaught `KeyError`
(`Except.error`), which kills the whole run before any output is produced. -/
def generateTables (pm plm : AliasMap) (selected : List Str) :
    List Upload → Except Unit (List (Str × List Row))
  | [] => .ok []
  | .badJson :: rest => generateTables pm plm selected rest
  | .doc d :: rest =>
    match d.GameId with
    | none => .error ()
    | some gid =>
      (generateTables pm plm selected rest).map
        (fun tl => (gidSan gid, build_individual_df (process_data pm plm d).1 selected) :: tl)

/-- Stage (c) as worded by claim C4: insert a space between a leading digit
run and the letters that follow it (nothing else), before title-casing. -/
def spaceLeadingDigits (p : Str) : Str :=
  let ds := p.takeWhile isDig
  let rest := p.dropWhile isDig
  if !ds.isEmpty && (match rest with | c :: _ => isAl c | [] => false) then ds ++ ' ' :: rest
  else p

/-- The period-normalization algorithm exactly as claim C4 words it: (a) a
case-insensitive config match returns the canonical name unconditionally;
(b) otherwise the space-free lowercased input is tested against the two
number/suffix patterns; (c) otherwise a space is inserted after a leading
digit run and the result is title-cased. -/
def normalize_period_claimed (period_map : AliasMap) (p : Str) : Str :=
  match findAlias (pyStrip p) period_map with
  | some e => e.1
  | none =>
    let p0 := lowerStr (despace p)
    match matchNumSuffix ["t".data, "top".data] p0 with
    | some ds => ds ++ " Top".data
    | none =>
      match matchNumSuffix ["b".data, "bot".data, "bottom".data] p0 with
      | some ds => ds ++ " Bottom".data
      | none => title (spaceLeadingDigits p)

/-- Alternative rendering of the digit/letter spacing substitution: emit each
character of `l` paired with its successor, followed by a space whenever it
is a digit and the successor is a letter. -/
def subA (l : Str) : Str :=
  (l.zip (l.tail.map some ++ [none])).flatMap
    (fun cd => if isDig cd.1 && cd.2.elim false isAl then [cd.1, ' '] else [cd.1])

/-- The pattern-based fallback stages (b)–(c) of `normalize_period`, phrased
per amended claim C4: regex tests on the space-free lowercased input, then
space removal, digit/letter spacing at every boundary, title-casing. -/
def fallbackAmended (p : Str) : Str :=
  let p0 := lowerStr (despace p)
  match matchNumSuffix ["t".data, "top".data] p0 with
  | some ds => ds ++ " Top".data
  | none =>
    match matchNumSuffix ["b".data, "bot".data, "bottom".data] p0 with
    | some ds => ds ++ " Bottom".data
    | none => title (subA (despace p))

/-- The period-normalization algorithm as amended: a config match is
returned only when the canonical name differs from the raw input; otherwise
the pattern-based fallback runs. -/
def normalize_period_amended (period_map : AliasMap) (p : Str) : Str :=
  match findAlias (pyStrip p) period_map with
  | some e => if e.1 = p then fallbackAmended p else e.1
  | none => fallbackAmended p

/-- Arithmetic mean of a list of rationals (division by zero for the empty
list, as in the source's `sum(...)/len(...)`). -/
def meanQ (l : List ℚ) : ℚ := l.sum / ((l.length : Nat) : ℚ)

/-- Claim-side total reading of an `Avg Screen %` cell. -/
def parsePctD (s : Str) : ℚ := (parseFloat? (stripPctChars s)).getD 0

/-- Claim-side per-game average of the screen-percentage cells of one
placement's sponsor rows. -/
def gameScreenMeanD (t : List Row) (pl : Str) : ℚ :=
  meanQ ((rowsFor t pl).map (fun r => parsePctD r.AvgScreen))

/-- Claim-side per-game accumulated duration of one period column for one
placement (total: an unparseable cell counts 0). -/
def gamePeriodD (t : List Row) (pl per : Str) : Nat :=
  ((rowsFor t pl).map (fun r => (parse_ms (cellOf r per)).getD 0)).sum

/-- Hypothesis for the screen-percentage claims: every `Avg Screen %` cell
of every table is a formatted non-negative percentage, as the per-game
builder produces. -/
def screensWF (tables : List (Str × List Row)) : Prop :=
  ∀ t ∈ tables, ∀ r ∈ t.2, ∃ q : ℚ, 0 ≤ q ∧ r.AvgScreen = fmt2 q ++ "%".data

/-- Hypothesis for the period-cell claims: every period cell of every row is
a formatted non-negative duration (possibly the empty string, which is
`ms_to_hhmmss 0`), as the per-game builder produces. -/
def periodCellsWF (tables : List (Str × List Row)) : Prop :=
  ∀ t ∈ tables, ∀ r ∈ t.2, ∀ per : Str, ∃ q : ℚ, 0 ≤ q ∧ cellOf r per = ms_to_hhmmss q

/-- Concrete logo for witnesses (spec §8 end-to-end example). -/
def logoW : LogoRecord :=
  { FileName := "Nike.png".data, GroupId := 1, Placement := some "LeftBoard".data }

/-- Concrete matching shot for witnesses. -/
def shotW : ShotRecord :=
  { FileName := "Nike.png".data, GroupId := 1, Period := "1T".data
    Duration := some 2000, ScreenPercentage := some 10 }

/-- Concrete orphan shot: its key occurs in no logo record. -/
def orphanShotW : ShotRecord :=
  { FileName := "Pepsi.png".data, GroupId := 7, Period := "2T".data
    Duration := some 999, ScreenPercentage := some 5 }

/-- Concrete well-formed document for witnesses. -/
def docW : InputDoc :=
  { GameId := some "G 1".data, Logos := some [logoW], Shots := some [shotW] }

/-- Concrete document that parses as JSON but carries no `GameInfo`. -/
def brokenDoc : InputDoc := { GameId := none, Logos := some [logoW], Shots := some [shotW] }

/-- Row of game A for the aggregate witnesses: average screen 50%, 5 shots. -/
def rowGameA : Row :=
  { Placement := "1 Top".data, Sponsor := "Acme".data, TotalShots := 5
    TotalDuration := "00:00:10".data, AvgScreen := "50.00%".data
    periodCells := [("Q1".data, "00:00:02".data)] }

/-- Row of game B for the aggregate witnesses: average screen 70%, 100
shots, no Q1 activity. -/
def rowGameB : Row :=
  { Placement := "1 Top".data, Sponsor := "Bolt".data, TotalShots := 100
    TotalDuration := "00:01:00".data, AvgScreen := "70.00%".data
    periodCells := [("Q1".data, [])] }

/-- Two single-row games with distinct shot counts for the aggregate
witnesses. -/
def twoGameTables : List (Str × List Row) :=
  [("g1".data, [rowGameA]), ("g2".data, [rowGameB])]

/-- Concrete sponsor-stats dict holding one counted bucket and one
zero-count bucket. -/
def statsW : List ((Str × Str) × Stats) :=
  [(("Nike".data, "LeftBoard".data), ⟨1, 2000, 10, [("1 Top".data, 2000)]⟩),
   (("Pepsi".data, "Main".data), zeroStats)]

example : natToChars 0 = "0".data := by decide
example : natToChars 3661 = "3661".data := by decide
example : pad2 7 = "07".data := by decide
example : ms_to_hhmmss 0 = [] := by decide
example : ms_to_hhmmss 500 = "00:00:01".data := by decide
example : ms_to_hhmmss 3661000 = "01:01:01".data := by decide
example : parse_ms "01:01:01".data = some 3661000 := by decide
example : fmt2 60 = "60.00".data := by decide
example : parseFloat? "50.00".data = some 50 := by decide
example : normalize_period [] "1T".data = "1 Top".data := by decide
example : normalize_period [] "12bottom".data = "12 Bottom".data := by decide
example : normalize_period [] "q1".data = "Q1".data := by decide
example : normalize_period [] "foo bar".data = "Foobar".data := by decide
example : normalize_period [("HALFTIME".data, [])] "Halftime".data = "HALFTIME".data := by decide
example : normalize_period [("HALFTIME".data, [])] "HALFTIME".data = "Halftime".data := by decide
example : normalize_sponsor "Nike(2).png".data = "Nike".data := by decide
example : normalize_sponsor "Adidas.jpg".data = "Adidas".data := by decide
example :
    build_individual_df (process_data [] [] docW).1 ["1 Top".data] =
      [{ Placement := "LeftBoard".data, Sponsor := "Nike".data, TotalShots := 1
         TotalDuration := "00:00:02".data, AvgScreen := "10.00%".data
         periodCells := [("1 Top".data, "00:00:02".data)] }] := by decide
example : aggScreenCell twoGameTables "1 Top".data = some "60.00%".data := by decide
example : aggPeriodCell twoGameTables "1 Top".data "Q1".data = some "00:00:02".data := by decide

theorem char_toNat_ofNat (m : Nat) (h : m < 55296) : (Char.ofNat m).toNat = m := by
  have hv : m.isValidChar := Or.inl h
  rw [Char.ofNat, dif_pos hv]
  simp [Char.ofNatAux, Char.toNat, Nat.toUInt32, UInt32.toNat, UInt32.ofNatCore]

theorem digitChar_toNat (d : Nat) (h : d < 10) : (digitChar d).toNat = 48 + d :=
  char_toNat_ofNat _ (by omega)

theorem isDig_digitChar (d : Nat) (h : d < 10) : isDig (digitChar d) = true := by
  simp [isDig, digitChar_toNat d h]; omega

theorem digVal_digitChar (d : Nat) (h : d < 10) : digVal (digitChar d) = d := by
  simp [digVal, digitChar_toNat d h]

theorem isEmpty_false_of_ne_nil {α : Type} {l : List α} (h : l ≠ []) : l.isEmpty = false := by
  cases l with
  | nil => exact absurd rfl h
  | cons a t => rfl

theorem natToCharsGo_digits :
    ∀ fuel n, n < fuel → ∀ c ∈ natToCharsGo fuel n, isDig c = true := by
  intro fuel
  induction fuel with
  | zero => intro n hn; omega
  | succ f ih =>
    intro n hn c hc
    rw [natToCharsGo] at hc
    by_cases h10 : n < 10
    · rw [if_pos h10] at hc
      simp only [List.mem_singleton] at hc
      exact hc ▸ isDig_digitChar n h10
    · rw [if_neg h10] at hc
      have hd : n / 10 < n := Nat.div_lt_self (by omega) (by omega)
      rcases List.mem_append.1 hc with h | h
      · exact ih (n / 10) (by omega) c h
      · simp only [List.mem_singleton] at h
        exact h ▸ isDig_digitChar (n % 10) (Nat.mod_lt n (by omega))

theorem natToCharsGo_ne_nil : ∀ fuel n, n < fuel → natToCharsGo fuel n ≠ [] := by
  intro fuel
  induction fuel with
  | zero => intro n hn; omega
  | succ f ih =>
    intro n hn
    rw [natToCharsGo]
    by_cases h10 : n < 10
    · rw [if_pos h10]; exact List.cons_ne_nil _ _
    · rw [if_neg h10]
      exact fun h => List.append_ne_nil_of_right_ne_nil _ (List.cons_ne_nil _ _) h

theorem natToCharsGo_foldl :
    ∀ fuel n a, n < fuel →
      (natToCharsGo fuel n).foldl (fun acc c => acc * 10 + digVal c) a =
        a * 10 ^ (natToCharsGo fuel n).length + n := by
  intro fuel
  induction fuel with
  | zero => intro n a hn; omega
  | succ f ih =>
    intro n a hn
    rw [natToCharsGo]
    by_cases h10 : n < 10
    · rw [if_pos h10]
      simp [List.foldl_cons, digVal_digitChar n h10]
    · rw [if_neg h10]
      have hd : n / 10 < n := Nat.div_lt_self (by omega) (by omega)
      rw [List.foldl_append, ih (n / 10) a (by omega)]
      simp only [List.foldl_cons, List.foldl_nil, List.length_append, List.length_singleton]
      rw [digVal_digitChar (n % 10) (Nat.mod_lt n (by omega))]
      have hdm : n / 10 * 10 + n % 10 = n := by omega
      calc (a * 10 ^ (natToCharsGo f (n / 10)).length + n / 10) * 10 + n % 10
          = a * 10 ^ (natToCharsGo f (n / 10)).length * 10 + (n / 10 * 10 + n % 10) := by ring
        _ = a * 10 ^ ((natToCharsGo f (n / 10)).length + 1) + n := by rw [hdm, pow_succ]; ring

theorem natToChars_digits (n : Nat) : ∀ c ∈ natToChars n, isDig c = true :=
  natToCharsGo_digits (n + 1) n (by omega)

theorem natToChars_ne_nil (n : Nat) : natToChars n ≠ [] :=
  natToCharsGo_ne_nil (n + 1) n (by omega)

theorem parseNat?_natToChars (n : Nat) : parseNat? (natToChars n) = some n := by
  have h1 : (natToChars n).isEmpty = false := isEmpty_false_of_ne_nil (natToChars_ne_nil n)
  have h2 : (natToChars n).all isDig = true := List.all_eq_true.2 (natToChars_digits n)
  simp only [parseNat?, h1, h2, Bool.not_true, Bool.or_false, Bool.false_or, if_neg,
    Bool.false_eq_true, not_false_iff]
  unfold natToChars
  rw [natToCharsGo_foldl (n + 1) n 0 (by omega)]
  simp

theorem pad2_digits (n : Nat) : ∀ c ∈ pad2 n, isDig c = true := by
  intro c hc
  unfold pad2 at hc
  by_cases h10 : n < 10
  · rw [if_pos h10] at hc
    rcases List.mem_cons.1 hc with h | h
    · subst h; decide
    · exact natToChars_digits n c h
  · rw [if_neg h10] at hc
    exact natToChars_digits n c hc

theorem pad2_ne_nil (n : Nat) : pad2 n ≠ [] := by
  unfold pad2
  by_cases h10 : n < 10
  · rw [if_pos h10]; exact List.cons_ne_nil _ _
  · rw [if_neg h10]; exact natToChars_ne_nil n

theorem parseNat?_pad2 (n : Nat) : parseNat? (pad2 n) = some n := by
  unfold pad2
  by_cases h10 : n < 10
  · rw [if_pos h10]
    have h1 : (('0' :: natToChars n)).isEmpty = false := rfl
    have h2 : (('0' :: natToChars n)).all isDig = true := by
      simp only [List.all_cons, Bool.and_eq_true]
      exact ⟨by decide, List.all_eq_true.2 (natToChars_digits n)⟩
    simp only [parseNat?, h1, h2, Bool.not_true, Bool.or_false, if_neg, Bool.false_eq_true,
      not_false_iff]
    rw [List.foldl_cons]
    have hv : (0 : Nat) * 10 + digVal '0' = 0 := by decide
    rw [hv]
    unfold natToChars
    rw [natToCharsGo_foldl (n + 1) n 0 (by omega)]
    simp
  · rw [if_neg h10]
    exact parseNat?_natToChars n

theorem parseNat?_some_shape {s : Str} {v : Nat} (h : parseNat? s = some v) :
    s ≠ [] ∧ ∀ c ∈ s, isDig c = true := by
  unfold parseNat? at h
  by_cases hc : (s.isEmpty || !s.all isDig) = true
  · rw [if_pos hc] at h; exact absurd h (by simp)
  · simp only [Bool.or_eq_true, Bool.not_eq_true', not_or] at hc
    obtain ⟨h1, h2⟩ := hc
    refine ⟨fun hnil => by subst hnil; exact absurd h1 (by decide), ?_⟩
    rw [Bool.not_eq_false] at h2
    exact List.all_eq_true.1 h2

theorem isDig_ne_colon {c : Char} (h : isDig c = true) : c ≠ ':' := by
  intro he; subst he; exact absurd h (by decide)

theorem isDig_ne_dot {c : Char} (h : isDig c = true) : c ≠ '.' := by
  intro he; subst he; exact absurd h (by decide)

theorem isDig_ne_pct {c : Char} (h : isDig c = true) : c ≠ '%' := by
  intro he; subst he; exact absurd h (by decide)

theorem splitOnChar_no_sep (sep : Char) :
    ∀ a : Str, (∀ c ∈ a, c ≠ sep) → splitOnChar sep a = [a] := by
  intro a
  induction a with
  | nil => intro _; rfl
  | cons c rest ih =>
    intro h
    have hc : ¬(c == sep) = true := by
      simp only [beq_iff_eq]
      exact h c (List.mem_cons_self c rest)
    rw [splitOnChar, if_neg hc, ih (fun x hx => h x (List.mem_cons_of_mem c hx))]

theorem splitOnChar_sep_append (sep : Char) :
    ∀ a b : Str, (∀ c ∈ a, c ≠ sep) →
      splitOnChar sep (a ++ sep :: b) = a :: splitOnChar sep b := by
  intro a
  induction a with
  | nil =>
    intro b _
    simp only [List.nil_append]
    rw [splitOnChar]
    simp
  | cons c rest ih =>
    intro b h
    have hc : ¬(c == sep) = true := by
      simp only [beq_iff_eq]
      exact h c (List.mem_cons_self c rest)
    rw [List.cons_append, splitOnChar, if_neg hc,
      ih b (fun x hx => h x (List.mem_cons_of_mem c hx))]

theorem parse_ms_concat (a b c : Str) (va vb vc : Nat)
    (hpa : parseNat? a = some va) (hpb : parseNat? b = some vb)
    (hpc : parseNat? c = some vc) :
    parse_ms (a ++ ':' :: b ++ ':' :: c) = some ((va * 3600 + vb * 60 + vc) * 1000) := by
  obtain ⟨hna, hda⟩ := parseNat?_some_shape hpa
  obtain ⟨hnb, hdb⟩ := parseNat?_some_shape hpb
  obtain ⟨hnc, hdc⟩ := parseNat?_some_shape hpc
  have hne : (a ++ ':' :: b ++ ':' :: c) ≠ [] := by
    cases a with
    | nil => exact absurd rfl hna
    | cons x xs => exact List.cons_ne_nil _ _
  have h1 : (a ++ ':' :: b ++ ':' :: c).isEmpty = false := isEmpty_false_of_ne_nil hne
  have hshape : a ++ ':' :: b ++ ':' :: c = a ++ (':' :: (b ++ ':' :: c)) := by
    simp
  have hsp : splitOnChar ':' (a ++ (':' :: (b ++ ':' :: c))) = a :: b :: [c] := by
    rw [splitOnChar_sep_append ':' a (b ++ ':' :: c) (fun x hx => isDig_ne_colon (hda x hx)),
      splitOnChar_sep_append ':' b c (fun x hx => isDig_ne_colon (hdb x hx)),
      splitOnChar_no_sep ':' c (fun x hx => isDig_ne_colon (hdc x hx))]
  rw [hshape] at h1 ⊢
  unfold parse_ms
  rw [h1]
  simp only [Bool.false_eq_true, if_false]
  simp only [hsp, hpa, hpb, hpc]

theorem fmt02_natCast (k : Nat) : fmt02 (k : Int) = pad2 k := by
  unfold fmt02
  rw [if_neg (by omega : ¬((k : Int) < 0))]
  simp

theorem fmt02_ne_nil (i : Int) : fmt02 i ≠ [] := by
  unfold fmt02
  split
  · exact List.cons_ne_nil _ _
  · exact pad2_ne_nil _

theorem parse_ms_ms_to_hhmmss (q : ℚ) (hq : 0 ≤ q) :
    parse_ms (ms_to_hhmmss q) = some (1000 * (⌈q / 1000⌉).toNat) := by
  have hc : (0 : ℚ) ≤ q / 1000 := by positivity
  have hT0 : 0 ≤ ⌈q / 1000⌉ := Int.ceil_nonneg hc
  by_cases h0 : (⌈q / 1000⌉ : Int) = 0
  · simp only [ms_to_hhmmss, h0, if_pos]
    decide
  · obtain ⟨n, hn⟩ := Int.eq_ofNat_of_zero_le hT0
    have hnn : ¬(((n : Nat) : Int) = 0) := by rw [← hn]; exact h0
    have e1 : Int.fdiv ((n : Nat) : Int) 3600 = ((n / 3600 : Nat) : Int) :=
      (Int.ofNat_fdiv n 3600).symm
    have e2 : Int.fmod ((n : Nat) : Int) 3600 = ((n % 3600 : Nat) : Int) :=
      (Int.ofNat_fmod n 3600).symm
    have e3 : Int.fdiv ((n % 3600 : Nat) : Int) 60 = ((n % 3600 / 60 : Nat) : Int) :=
      (Int.ofNat_fdiv (n % 3600) 60).symm
    have e4 : Int.fmod ((n % 3600 : Nat) : Int) 60 = ((n % 3600 % 60 : Nat) : Int) :=
      (Int.ofNat_fmod (n % 3600) 60).symm
    simp only [ms_to_hhmmss, hn, if_neg hnn, e1, e2, e3, e4, fmt02_natCast]
    rw [parse_ms_concat _ _ _ _ _ _ (parseNat?_pad2 _) (parseNat?_pad2 _) (parseNat?_pad2 _)]
    simp only [Int.toNat_natCast]
    congr 1
    omega

/-- C7: `ms_to_hhmmss` converts milliseconds to whole seconds by ceiling,
renders zero seconds as the empty string and positive totals as zero-padded
`HH:MM:SS` with unbounded hours (witnessed by the round trip through the
independent field parser `parse_ms` and by the concrete examples, including
one beyond 24 hours). -/
theorem C7_ms_to_hhmmss_spec :
    (∀ q : ℚ, 0 ≤ q → parse_ms (ms_to_hhmmss q) = some (1000 * (⌈q / 1000⌉).toNat)) ∧
    (∀ q : ℚ, 0 ≤ q → (ms_to_hhmmss q = [] ↔ ⌈q / 1000⌉ = 0)) ∧
    ms_to_hhmmss 0 = [] ∧
    ms_to_hhmmss 500 = "00:00:01".data ∧
    ms_to_hhmmss 3661000 = "01:01:01".data ∧
    ms_to_hhmmss 360000000 = "100:00:00".data := by
  refine ⟨fun q hq => parse_ms_ms_to_hhmmss q hq, fun q hq => ?_, by decide, by decide, by decide,
    by decide⟩
  constructor
  · intro he
    by_contra h0
    simp only [ms_to_hhmmss, if_neg h0] at he
    exact fmt02_ne_nil _ (List.append_eq_nil.1 (List.append_eq_nil.1 he).1).1
  · intro h0
    unfold ms_to_hhmmss
    rw [h0]
    rfl

/-- Witness for C7 at the concrete input 500 ms. -/
theorem C7_ms_to_hhmmss_spec_witness :
    (0 : ℚ) ≤ 500 ∧ parse_ms (ms_to_hhmmss 500) = some (1000 * (⌈(500 : ℚ) / 1000⌉).toNat) ∧
      (ms_to_hhmmss (500 : ℚ) = [] ↔ ⌈(500 : ℚ) / 1000⌉ = 0) :=
  ⟨by norm_num, C7_ms_to_hhmmss_spec.1 500 (by norm_num),
    C7_ms_to_hhmmss_spec.2.1 500 (by norm_num)⟩

/-- C8: for a non-negative whole multiple of 1000 ms, parsing the formatted
string back and reformatting reproduces the string exactly. -/
theorem C8_format_parse_roundtrip (x : ℚ) (h : ∃ k : Nat, x = 1000 * k) :
    (parse_ms (ms_to_hhmmss x)).map (fun n : Nat => ms_to_hhmmss (n : ℚ)) =
      some (ms_to_hhmmss x) := by
  obtain ⟨k, rfl⟩ := h
  have h0 : (0 : ℚ) ≤ 1000 * k := by positivity
  rw [parse_ms_ms_to_hhmmss _ h0]
  have harg : (1000 * (k : ℚ)) / 1000 = (k : ℚ) := by
    field_simp
  rw [harg, Int.ceil_natCast, Int.toNat_natCast, Option.map_some']
  norm_cast

theorem subDigitsLetters_eq_subA : ∀ l : Str, subDigitsLetters l = subA l
  | [] => rfl
  | [_] => by simp [subA, subDigitsLetters]
  | c :: d :: t => by
    have ih := subDigitsLetters_eq_subA (d :: t)
    have hA : subA (c :: d :: t) =
        (if isDig c && isAl d then [c, ' '] else [c]) ++ subA (d :: t) := by
      simp [subA]
    rw [subDigitsLetters, hA, ih]
    by_cases h : (isDig c && isAl d) = true
    · rw [if_pos h, if_pos h]; rfl
    · rw [if_neg h, if_neg h]; rfl

/-- C4 is refuted at the empty configuration and the input `"foo bar"`: the
code removes the interior space before title-casing (and spaces out every
digit/letter boundary, not only a leading one), so it returns `"Foobar"`
where the claimed three-stage algorithm returns `"Foo Bar"`. -/
theorem C4_counterexample :
    normalize_period [] "foo bar".data ≠ normalize_period_claimed [] "foo bar".data ∧
      normalize_period [] "foo bar".data = "Foobar".data ∧
      normalize_period_claimed [] "foo bar".data = "Foo Bar".data := by
  refine ⟨by decide, by decide, by decide⟩

/-- C4 (amended): `normalize_period` returns a config match only when the
canonical name differs from the raw input (otherwise it falls through); the
regex stage works on the space-removed lowercased input; the last stage
removes spaces, inserts a space between every digit immediately followed by
a letter, and title-cases. -/
theorem C4_normalize_period_algorithm (pm : AliasMap) (p : Str) :
    normalize_period pm p = normalize_period_amended pm p := by
  cases hfa : findAlias (pyStrip p) pm with
  | none =>
    simp only [normalize_period, normalize_period_amended, normalize_with_map, hfa,
      fallbackAmended, subDigitsLetters_eq_subA]
    rw [if_neg (fun hne => hne rfl)]
  | some e =>
    by_cases hep : e.1 = p
    · simp only [normalize_period, normalize_period_amended, normalize_with_map, hfa,
        fallbackAmended, subDigitsLetters_eq_subA, hep]
      simp
    · simp only [normalize_period, normalize_period_amended, normalize_with_map, hfa]
      rw [if_pos hep, if_neg hep]

theorem bool_eq_of_iff {a b : Bool} (h : a = true ↔ b = true) : a = b := by
  cases a <;> cases b <;> simp_all

theorem isUp_iff (c : Char) : isUp c = true ↔ 65 ≤ c.toNat ∧ c.toNat ≤ 90 := by
  simp [isUp]

theorem isLo_iff (c : Char) : isLo c = true ↔ 97 ≤ c.toNat ∧ c.toNat ≤ 122 := by
  simp [isLo]

theorem isDig_iff (c : Char) : isDig c = true ↔ 48 ≤ c.toNat ∧ c.toNat ≤ 57 := by
  simp [isDig]

theorem isAl_iff (c : Char) :
    isAl c = true ↔ (65 ≤ c.toNat ∧ c.toNat ≤ 90) ∨ (97 ≤ c.toNat ∧ c.toNat ≤ 122) := by
  simp [isAl, isUp_iff, isLo_iff]

theorem char_eq_of_toNat_eq {c d : Char} (h : c.toNat = d.toNat) : c = d := by
  rw [← Char.ofNat_toNat c, ← Char.ofNat_toNat d, h]

theorem lowerChar_toNat (c : Char) :
    (lowerChar c).toNat = if isUp c = true then c.toNat + 32 else c.toNat := by
  unfold lowerChar
  by_cases h : isUp c = true
  · rw [if_pos h, if_pos h]
    exact char_toNat_ofNat _ (by have := (isUp_iff c).1 h; omega)
  · rw [if_neg h, if_neg h]

theorem upperChar_toNat (c : Char) :
    (upperChar c).toNat = if isLo c = true then c.toNat - 32 else c.toNat := by
  unfold upperChar
  by_cases h : isLo c = true
  · rw [if_pos h, if_pos h]
    exact char_toNat_ofNat _ (by have := (isLo_iff c).1 h; omega)
  · rw [if_neg h, if_neg h]

theorem lowerChar_fix_of_not_up {c : Char} (h : isUp c = false) : lowerChar c = c := by
  rw [lowerChar, if_neg (by simp [h])]

theorem upperChar_fix_of_not_lo {c : Char} (h : isLo c = false) : upperChar c = c := by
  rw [upperChar, if_neg (by simp [h])]

theorem isUp_lowerChar (c : Char) : isUp (lowerChar c) = false := by
  by_cases h : isUp c = true
  · have hb := (isUp_iff c).1 h
    have ht : (lowerChar c).toNat = c.toNat + 32 := by rw [lowerChar_toNat, if_pos h]
    rw [Bool.eq_false_iff]
    intro hx
    have := (isUp_iff _).1 hx
    omega
  · have hf : isUp c = false := by simpa using h
    rw [lowerChar_fix_of_not_up hf]
    exact hf

theorem isLo_upperChar (c : Char) : isLo (upperChar c) = false := by
  by_cases h : isLo c = true
  · have hb := (isLo_iff c).1 h
    have ht : (upperChar c).toNat = c.toNat - 32 := by rw [upperChar_toNat, if_pos h]
    rw [Bool.eq_false_iff]
    intro hx
    have := (isLo_iff _).1 hx
    omega
  · have hf : isLo c = false := by simpa using h
    rw [upperChar_fix_of_not_lo hf]
    exact hf

theorem lowerChar_lowerChar (c : Char) : lowerChar (lowerChar c) = lowerChar c :=
  lowerChar_fix_of_not_up (isUp_lowerChar c)

theorem upperChar_upperChar (c : Char) : upperChar (upperChar c) = upperChar c :=
  upperChar_fix_of_not_lo (isLo_upperChar c)

theorem lowerChar_upperChar (c : Char) : lowerChar (upperChar c) = lowerChar c := by
  by_cases hlo : isLo c = true
  · have hb := (isLo_iff c).1 hlo
    have ht : (upperChar c).toNat = c.toNat - 32 := by rw [upperChar_toNat, if_pos hlo]
    have hup : isUp (upperChar c) = true := (isUp_iff _).2 (by omega)
    have hupc : isUp c = false := by
      rw [Bool.eq_false_iff]
      intro hx
      have := (isUp_iff c).1 hx
      omega
    apply char_eq_of_toNat_eq
    rw [lowerChar_toNat, lowerChar_toNat, if_pos hup, if_neg (by simp [hupc]), ht]
    omega
  · rw [upperChar_fix_of_not_lo (by simpa using hlo)]

theorem upperChar_lowerChar (c : Char) : upperChar (lowerChar c) = upperChar c := by
  by_cases hup : isUp c = true
  · have hb := (isUp_iff c).1 hup
    have ht : (lowerChar c).toNat = c.toNat + 32 := by rw [lowerChar_toNat, if_pos hup]
    have hlo : isLo (lowerChar c) = true := (isLo_iff _).2 (by omega)
    have hloc : isLo c = false := by
      rw [Bool.eq_false_iff]
      intro hx
      have := (isLo_iff c).1 hx
      omega
    rw [upperChar_fix_of_not_lo hloc]
    apply char_eq_of_toNat_eq
    rw [upperChar_toNat, if_pos hlo, ht]
    omega
  · rw [lowerChar_fix_of_not_up (by simpa using hup)]

theorem isAl_lowerChar (c : Char) : isAl (lowerChar c) = isAl c := by
  apply bool_eq_of_iff
  rw [isAl_iff, isAl_iff, lowerChar_toNat]
  by_cases h : isUp c = true
  · have := (isUp_iff c).1 h
    rw [if_pos h]
    omega
  · have : ¬(65 ≤ c.toNat ∧ c.toNat ≤ 90) := fun hb => h ((isUp_iff c).2 hb)
    rw [if_neg h]

theorem isAl_upperChar (c : Char) : isAl (upperChar c) = isAl c := by
  apply bool_eq_of_iff
  rw [isAl_iff, isAl_iff, upperChar_toNat]
  by_cases h : isLo c = true
  · have := (isLo_iff c).1 h
    rw [if_pos h]
    omega
  · rw [if_neg h]

theorem isDig_lowerChar (c : Char) : isDig (lowerChar c) = isDig c := by
  apply bool_eq_of_iff
  rw [isDig_iff, isDig_iff, lowerChar_toNat]
  by_cases h : isUp c = true
  · have := (isUp_iff c).1 h
    rw [if_pos h]
    omega
  · rw [if_neg h]

theorem isDig_upperChar (c : Char) : isDig (upperChar c) = isDig c := by
  apply bool_eq_of_iff
  rw [isDig_iff, isDig_iff, upperChar_toNat]
  by_cases h : isLo c = true
  · have := (isLo_iff c).1 h
    rw [if_pos h]
    omega
  · rw [if_neg h]

theorem isAl_false_of_isDig {c : Char} (h : isDig c = true) : isAl c = false := by
  have hb := (isDig_iff c).1 h
  rw [Bool.eq_false_iff]
  intro hx
  have := (isAl_iff c).1 hx
  omega

theorem lowerChar_fix_of_isDig {c : Char} (h : isDig c = true) : lowerChar c = c := by
  apply lowerChar_fix_of_not_up
  have hb := (isDig_iff c).1 h
  rw [Bool.eq_false_iff]
  intro hx
  have := (isUp_iff c).1 hx
  omega

theorem lowerChar_ne_space {c : Char} (h : c ≠ ' ') : lowerChar c ≠ ' ' := by
  intro hx
  have h32 : (lowerChar c).toNat = 32 := by rw [hx]; rfl
  rw [lowerChar_toNat] at h32
  by_cases hu : isUp c = true
  · rw [if_pos hu] at h32
    have := (isUp_iff c).1 hu
    omega
  · rw [if_neg hu] at h32
    exact h (char_eq_of_toNat_eq (by rw [h32]; rfl))

theorem upperChar_ne_space {c : Char} (h : c ≠ ' ') : upperChar c ≠ ' ' := by
  intro hx
  have h32 : (upperChar c).toNat = 32 := by rw [hx]; rfl
  rw [upperChar_toNat] at h32
  by_cases hu : isLo c = true
  · rw [if_pos hu] at h32
    have := (isLo_iff c).1 hu
    omega
  · rw [if_neg hu] at h32
    exact h (char_eq_of_toNat_eq (by rw [h32]; rfl))

theorem titleMap_ne_space (b : Bool) {c : Char} (h : c ≠ ' ') : titleMap b c ≠ ' ' := by
  unfold titleMap
  split
  · split
    · exact lowerChar_ne_space h
    · exact upperChar_ne_space h
  · exact h

theorem titleMap_titleMap (b : Bool) (c : Char) : titleMap b (titleMap b c) = titleMap b c := by
  by_cases hA : isAl c = true
  · cases b with
    | false =>
      have h1 : titleMap false c = upperChar c := by rw [titleMap, if_pos hA]; rfl
      rw [h1, titleMap, if_pos (by rw [isAl_upperChar]; exact hA)]
      simpa using upperChar_upperChar c
    | true =>
      have h1 : titleMap true c = lowerChar c := by rw [titleMap, if_pos hA]; rfl
      rw [h1, titleMap, if_pos (by rw [isAl_lowerChar]; exact hA)]
      simpa using lowerChar_lowerChar c
  · have h1 : titleMap b c = c := by rw [titleMap, if_neg hA]
    rw [h1, h1]

theorem isAl_titleMap (b : Bool) (c : Char) : isAl (titleMap b c) = isAl c := by
  unfold titleMap
  by_cases hA : isAl c = true
  · rw [if_pos hA]
    cases b with
    | false => simpa using isAl_upperChar c
    | true => simpa using isAl_lowerChar c
  · rw [if_neg hA]

theorem isDig_titleMap (b : Bool) (c : Char) : isDig (titleMap b c) = isDig c := by
  unfold titleMap
  by_cases hA : isAl c = true
  · rw [if_pos hA]
    cases b with
    | false => simpa using isDig_upperChar c
    | true => simpa using isDig_lowerChar c
  · rw [if_neg hA]

theorem lowerChar_titleMap (b : Bool) (c : Char) : lowerChar (titleMap b c) = lowerChar c := by
  unfold titleMap
  by_cases hA : isAl c = true
  · rw [if_pos hA]
    cases b with
    | false => simpa using lowerChar_upperChar c
    | true => simpa using lowerChar_lowerChar c
  · rw [if_neg hA]

theorem titleGo_cons (b : Bool) (c : Char) (t : Str) :
    titleGo b (c :: t) = titleMap b c :: titleGo (isAl c) t := rfl

theorem titleGo_titleGo : ∀ (s : Str) (b : Bool), titleGo b (titleGo b s) = titleGo b s := by
  intro s
  induction s with
  | nil => intro b; rfl
  | cons c t ih =>
    intro b
    rw [titleGo_cons, titleGo_cons, titleMap_titleMap, isAl_titleMap, ih (isAl c)]

theorem lowerStr_titleGo : ∀ (s : Str) (b : Bool), lowerStr (titleGo b s) = lowerStr s := by
  intro s
  induction s with
  | nil => intro b; rfl
  | cons c t ih =>
    intro b
    rw [titleGo_cons]
    show lowerChar (titleMap b c) :: lowerStr (titleGo (isAl c) t) = lowerChar c :: lowerStr t
    rw [lowerChar_titleMap, ih (isAl c)]

theorem sub_titleGo : ∀ (s : Str) (b : Bool),
    subDigitsLetters (titleGo b s) = titleGo b (subDigitsLetters s) := by
  intro s
  induction s with
  | nil => intro b; rfl
  | cons c t ih =>
    cases t with
    | nil => intro b; rfl
    | cons d t' =>
      intro b
      by_cases h : (isDig c && isAl d) = true
      · have hdig : isDig c = true := by
          have h2 := h
          rw [Bool.and_eq_true] at h2
          exact h2.1
        have hAlC : isAl c = false := isAl_false_of_isDig hdig
        calc subDigitsLetters (titleGo b (c :: d :: t'))
            = subDigitsLetters (titleMap b c :: titleGo (isAl c) (d :: t')) := rfl
          _ = subDigitsLetters (titleMap b c :: titleMap (isAl c) d :: titleGo (isAl d) t') := by
              rw [titleGo_cons (isAl c) d t']
          _ = titleMap b c :: ' ' ::
                subDigitsLetters (titleMap (isAl c) d :: titleGo (isAl d) t') := by
              rw [subDigitsLetters, if_pos (by rw [isDig_titleMap, isAl_titleMap]; exact h)]
          _ = titleMap b c :: ' ' :: subDigitsLetters (titleGo (isAl c) (d :: t')) := by
              rw [titleGo_cons (isAl c) d t']
          _ = titleMap b c :: ' ' :: titleGo (isAl c) (subDigitsLetters (d :: t')) := by
              rw [ih (isAl c)]
          _ = titleMap b c :: titleMap (isAl c) ' ' ::
                titleGo (isAl ' ') (subDigitsLetters (d :: t')) := by
              rw [hAlC]
              rfl
          _ = titleGo b (c :: ' ' :: subDigitsLetters (d :: t')) := by
              rw [titleGo_cons, titleGo_cons]
          _ = titleGo b (subDigitsLetters (c :: d :: t')) := by
              rw [subDigitsLetters, if_pos h]
      · calc subDigitsLetters (titleGo b (c :: d :: t'))
            = subDigitsLetters (titleMap b c :: titleMap (isAl c) d :: titleGo (isAl d) t') := by
              rw [titleGo_cons, titleGo_cons]
          _ = titleMap b c :: subDigitsLetters (titleMap (isAl c) d :: titleGo (isAl d) t') := by
              rw [subDigitsLetters, if_neg (by rw [isDig_titleMap, isAl_titleMap]; exact h)]
          _ = titleMap b c :: subDigitsLetters (titleGo (isAl c) (d :: t')) := by
              rw [titleGo_cons (isAl c) d t']
          _ = titleMap b c :: titleGo (isAl c) (subDigitsLetters (d :: t')) := by
              rw [ih (isAl c)]
          _ = titleGo b (c :: subDigitsLetters (d :: t')) := by
              rw [titleGo_cons]
          _ = titleGo b (subDigitsLetters (c :: d :: t')) := by
              rw [subDigitsLetters, if_neg h]

theorem despace_cons_keep {c : Char} (h : c ≠ ' ') (t : Str) :
    despace (c :: t) = c :: despace t := by
  unfold despace
  rw [List.filter_cons_of_pos (by simpa using h)]

theorem despace_cons_space (t : Str) : despace (' ' :: t) = despace t := by
  unfold despace
  rw [List.filter_cons_of_neg (by simp)]

theorem despace_no_space (s : Str) : ∀ c ∈ despace s, c ≠ ' ' := by
  intro c hc
  have := (List.mem_filter.1 hc).2
  simpa using this

theorem despace_of_no_space : ∀ s : Str, (∀ c ∈ s, c ≠ ' ') → despace s = s := by
  intro s
  induction s with
  | nil => intro _; rfl
  | cons c t ih =>
    intro h
    rw [despace_cons_keep (h c (List.mem_cons_self c t)) t,
      ih (fun x hx => h x (List.mem_cons_of_mem c hx))]

theorem despace_titleGo_sub : ∀ (q : Str) (b : Bool), (∀ c ∈ q, c ≠ ' ') →
    despace (titleGo b (subDigitsLetters q)) = titleGo b q := by
  intro q
  induction q with
  | nil => intro b _; rfl
  | cons c t ih =>
    cases t with
    | nil =>
      intro b h
      show despace [titleMap b c] = [titleMap b c]
      exact despace_of_no_space _ (by
        intro x hx
        rw [List.mem_singleton] at hx
        subst hx
        exact titleMap_ne_space b (h c (List.mem_cons_self c [])))
    | cons d t' =>
      intro b h
      have hcs : c ≠ ' ' := h c (List.mem_cons_self c (d :: t'))
      have hrest : ∀ x ∈ d :: t', x ≠ ' ' := fun x hx => h x (List.mem_cons_of_mem c hx)
      by_cases hb : (isDig c && isAl d) = true
      · have hdig : isDig c = true := by
          have h2 := hb
          rw [Bool.and_eq_true] at h2
          exact h2.1
        have hAlC : isAl c = false := isAl_false_of_isDig hdig
        calc despace (titleGo b (subDigitsLetters (c :: d :: t')))
            = despace (titleGo b (c :: ' ' :: subDigitsLetters (d :: t'))) := by
              rw [subDigitsLetters, if_pos hb]
          _ = despace (titleMap b c :: titleMap (isAl c) ' ' ::
                titleGo (isAl ' ') (subDigitsLetters (d :: t'))) := by
              rw [titleGo_cons, titleGo_cons]
          _ = despace (titleMap b c :: ' ' :: titleGo false (subDigitsLetters (d :: t'))) := by
              rfl
          _ = titleMap b c :: despace (titleGo false (subDigitsLetters (d :: t'))) := by
              rw [despace_cons_keep (titleMap_ne_space b hcs), despace_cons_space]
          _ = titleMap b c :: titleGo false (d :: t') := by
              rw [ih false hrest]
          _ = titleGo b (c :: d :: t') := by
              conv_rhs => rw [titleGo_cons, hAlC]
      · calc despace (titleGo b (subDigitsLetters (c :: d :: t')))
            = despace (titleGo b (c :: subDigitsLetters (d :: t'))) := by
              rw [subDigitsLetters, if_neg hb]
          _ = despace (titleMap b c :: titleGo (isAl c) (subDigitsLetters (d :: t'))) := by
              rw [titleGo_cons]
          _ = titleMap b c :: despace (titleGo (isAl c) (subDigitsLetters (d :: t'))) := by
              rw [despace_cons_keep (titleMap_ne_space b hcs)]
          _ = titleMap b c :: titleGo (isAl c) (d :: t') := by
              rw [ih (isAl c) hrest]
          _ = titleGo b (c :: d :: t') := by
              conv_rhs => rw [titleGo_cons]

theorem takeWhile_all_append {p : Char → Bool} :
    ∀ a : Str, (∀ c ∈ a, p c = true) → ∀ t : Str,
      (a ++ t).takeWhile p = a ++ t.takeWhile p := by
  intro a
  induction a with
  | nil => intro _ t; rfl
  | cons c rest ih =>
    intro h t
    rw [List.cons_append, List.takeWhile_cons_of_pos (h c (List.mem_cons_self c rest)),
      ih (fun x hx => h x (List.mem_cons_of_mem c hx)) t, List.cons_append]

theorem dropWhile_all_append {p : Char → Bool} :
    ∀ a : Str, (∀ c ∈ a, p c = true) → ∀ t : Str,
      (a ++ t).dropWhile p = t.dropWhile p := by
  intro a
  induction a with
  | nil => intro _ t; rfl
  | cons c rest ih =>
    intro h t
    rw [List.cons_append, List.dropWhile_cons_of_pos (h c (List.mem_cons_self c rest)),
      ih (fun x hx => h x (List.mem_cons_of_mem c hx)) t]

theorem dropWhile_eq_self_of_takeWhile_nil {p : Char → Bool} :
    ∀ t : Str, t.takeWhile p = [] → t.dropWhile p = t := by
  intro t
  cases t with
  | nil => intro _; rfl
  | cons c rest =>
    intro h
    by_cases hp : p c = true
    · rw [List.takeWhile_cons_of_pos hp] at h
      exact absurd h (List.cons_ne_nil _ _)
    · rw [List.dropWhile_cons_of_neg hp]

theorem lowerStr_append (a b : Str) : lowerStr (a ++ b) = lowerStr a ++ lowerStr b := by
  unfold lowerStr
  exact List.map_append lowerChar a b

theorem lowerStr_digits : ∀ ds : Str, (∀ c ∈ ds, isDig c = true) → lowerStr ds = ds := by
  intro ds
  induction ds with
  | nil => intro _; rfl
  | cons c rest ih =>
    intro h
    show lowerChar c :: lowerStr rest = c :: rest
    rw [lowerChar_fix_of_isDig (h c (List.mem_cons_self c rest)),
      ih (fun x hx => h x (List.mem_cons_of_mem c hx))]

theorem despace_append (a b : Str) : despace (a ++ b) = despace a ++ despace b := by
  unfold despace
  exact List.filter_append a b

theorem despace_digits (ds : Str) (h : ∀ c ∈ ds, isDig c = true) : despace ds = ds :=
  despace_of_no_space ds (fun c hc he => by subst he; exact absurd (h _ hc) (by decide))

theorem matchNumSuffix_eval (sfx : List Str) (ds t : Str) (hne : ds ≠ [])
    (hds : ∀ c ∈ ds, isDig c = true) (htw : t.takeWhile isDig = []) :
    matchNumSuffix sfx (ds ++ t) =
      if sfx.any (fun s => t == s) = true then some ds else none := by
  unfold matchNumSuffix
  rw [takeWhile_all_append ds hds t, htw, List.append_nil, dropWhile_all_append ds hds t,
    dropWhile_eq_self_of_takeWhile_nil t htw]
  show (if (!ds.isEmpty && sfx.any fun s => t == s) = true then some ds else none) =
    if (sfx.any fun s => t == s) = true then some ds else none
  rw [isEmpty_false_of_ne_nil hne]
  by_cases ha : sfx.any (fun s => t == s) = true
  · have hcond : (!(false : Bool) && sfx.any fun s => t == s) = true := by
      simp only [Bool.not_false, Bool.true_and]
      exact ha
    rw [if_pos hcond, if_pos ha]
  · have hcond : ¬((!(false : Bool) && sfx.any fun s => t == s) = true) := by
      simp only [Bool.not_false, Bool.true_and]
      exact ha
    rw [if_neg hcond, if_neg ha]

theorem matchNumSuffix_some {sfx : List Str} {x ds : Str}
    (h : matchNumSuffix sfx x = some ds) :
    ds ≠ [] ∧ ∀ c ∈ ds, isDig c = true := by
  unfold matchNumSuffix at h
  by_cases hc : (!(x.takeWhile isDig).isEmpty &&
      sfx.any (fun s => x.dropWhile isDig == s)) = true
  · rw [if_pos hc] at h
    have hds : ds = x.takeWhile isDig := by
      injection h with h2
      exact h2.symm
    subst hds
    constructor
    · intro hnil
      rw [hnil] at hc
      simp at hc
    · intro c hcm
      exact List.mem_takeWhile_imp hcm
  · rw [if_neg hc] at h
    exact absurd h (by simp)

theorem normalize_period_nil_eq (p : Str) :
    normalize_period [] p =
      (match matchNumSuffix ["t".data, "top".data] (lowerStr (despace p)) with
       | some ds => ds ++ " Top".data
       | none =>
         match matchNumSuffix ["b".data, "bot".data, "bottom".data] (lowerStr (despace p)) with
         | some ds => ds ++ " Bottom".data
         | none => title (subDigitsLetters (despace p))) := by
  simp only [normalize_period, normalize_with_map, findAlias]
  rw [if_neg (fun h => h rfl)]

theorem normalize_period_nil_top (ds : Str) (hne : ds ≠ [])
    (hds : ∀ c ∈ ds, isDig c = true) :
    normalize_period [] (ds ++ " Top".data) = ds ++ " Top".data := by
  rw [normalize_period_nil_eq]
  have hdsp : despace (ds ++ " Top".data) = ds ++ "Top".data := by
    rw [despace_append, despace_digits ds hds]
    rfl
  have hlow : lowerStr (ds ++ "Top".data) = ds ++ "top".data := by
    rw [lowerStr_append, lowerStr_digits ds hds]
    rfl
  rw [hdsp, hlow, matchNumSuffix_eval _ ds "top".data hne hds (by decide),
    if_pos (by decide)]

theorem normalize_period_nil_bottom (ds : Str) (hne : ds ≠ [])
    (hds : ∀ c ∈ ds, isDig c = true) :
    normalize_period [] (ds ++ " Bottom".data) = ds ++ " Bottom".data := by
  rw [normalize_period_nil_eq]
  have hdsp : despace (ds ++ " Bottom".data) = ds ++ "Bottom".data := by
    rw [despace_append, despace_digits ds hds]
    rfl
  have hlow : lowerStr (ds ++ "Bottom".data) = ds ++ "bottom".data := by
    rw [lowerStr_append, lowerStr_digits ds hds]
    rfl
  rw [hdsp, hlow, matchNumSuffix_eval _ ds "bottom".data hne hds (by decide),
    if_neg (by decide), matchNumSuffix_eval _ ds "bottom".data hne hds (by decide),
    if_pos (by decide)]

theorem normalize_period_nil_fallthrough (p : Str)
    (h1 : matchNumSuffix ["t".data, "top".data] (lowerStr (despace p)) = none)
    (h2 : matchNumSuffix ["b".data, "bot".data, "bottom".data] (lowerStr (despace p)) = none) :
    normalize_period [] (normalize_period [] p) = normalize_period [] p := by
  rw [normalize_period_nil_eq p, h1, h2]
  have hqs : ∀ c ∈ despace p, c ≠ ' ' := despace_no_space p
  have hdr : despace (titleGo false (subDigitsLetters (despace p))) =
      titleGo false (despace p) := despace_titleGo_sub (despace p) false hqs
  have hdr2 : despace (title (subDigitsLetters (despace p))) = titleGo false (despace p) := hdr
  rw [normalize_period_nil_eq]
  have hls : lowerStr (despace (title (subDigitsLetters (despace p)))) =
      lowerStr (despace p) := by
    rw [hdr2, lowerStr_titleGo]
  rw [hls, h1, h2, hdr2]
  show title (subDigitsLetters (titleGo false (despace p))) = title (subDigitsLetters (despace p))
  unfold title
  rw [sub_titleGo]
  exact titleGo_titleGo _ false

/-- C5 is refuted by the configuration mapping canonical name `HALFTIME` to
no aliases: `normalize_period` sends `"Halftime"` to `"HALFTIME"`, but a
second application falls through the config stage (the match result equals
the input) and title-cases it back to `"Halftime"` — a two-cycle, not a
fixed point. -/
theorem C5_counterexample :
    normalize_period [("HALFTIME".data, [])]
        (normalize_period [("HALFTIME".data, [])] "Halftime".data) ≠
      normalize_period [("HALFTIME".data, [])] "Halftime".data := by decide

/-- C5 (amended): `normalize_period` is idempotent under the empty alias
configuration (the pattern-based fallback stages are idempotent); under an
arbitrary configuration idempotence can fail, as `C5_counterexample` shows. -/
theorem C5_normalize_period_idempotent_nil (p : Str) :
    normalize_period [] (normalize_period [] p) = normalize_period [] p := by
  cases h1 : matchNumSuffix ["t".data, "top".data] (lowerStr (despace p)) with
  | some ds =>
    obtain ⟨hne, hds⟩ := matchNumSuffix_some h1
    rw [normalize_period_nil_eq p, h1]
    exact normalize_period_nil_top ds hne hds
  | none =>
    cases h2 : matchNumSuffix ["b".data, "bot".data, "bottom".data]
        (lowerStr (despace p)) with
    | some ds =>
      obtain ⟨hne, hds⟩ := matchNumSuffix_some h2
      rw [normalize_period_nil_eq p, h1, h2]
      exact normalize_period_nil_bottom ds hne hds
    | none => exact normalize_period_nil_fallthrough p h1 h2

theorem dfind?_dset_self {K V : Type} [DecidableEq K] :
    ∀ (d : List (K × V)) (k : K) (v : V), dfind? (dset d k v) k = some v := by
  intro d k v
  induction d with
  | nil => simp [dset, dfind?]
  | cons e rest ih =>
    rw [dset]
    by_cases h : e.1 = k
    · rw [if_pos h, dfind?, if_pos rfl]
    · rw [if_neg h, dfind?, if_neg h, ih]

theorem dfind?_dset_ne {K V : Type} [DecidableEq K] :
    ∀ (d : List (K × V)) (k k' : K) (v : V), k' ≠ k →
      dfind? (dset d k' v) k = dfind? d k := by
  intro d k k' v hne
  induction d with
  | nil => simp [dset, dfind?, hne]
  | cons e rest ih =>
    rw [dset]
    by_cases h : e.1 = k'
    · rw [if_pos h, dfind?, if_neg hne, dfind?, if_neg (by rw [h]; exact hne)]
    · rw [if_neg h, dfind?, dfind?]
      by_cases h2 : e.1 = k
      · rw [if_pos h2, if_pos h2]
      · rw [if_neg h2, if_neg h2, ih]

theorem dfind?_logosDict_aux (plm : AliasMap) (key : SKey) :
    ∀ (logos : List LogoRecord) (d : List (SKey × Str)),
      key ∉ logos.map (fun l => (l.FileName, l.GroupId)) →
      dfind? d key = none →
      dfind? (logos.foldl
        (fun d l => dset d (l.FileName, l.GroupId)
          (normalize_placement plm (l.Placement.getD []))) d) key = none := by
  intro logos
  induction logos with
  | nil => intro d _ hd; exact hd
  | cons l rest ih =>
    intro d hmem hd
    rw [List.foldl_cons]
    refine ih _ (fun hx => hmem (List.mem_cons_of_mem _ hx)) ?_
    rw [dfind?_dset_ne _ _ _ _ (fun he => hmem (by rw [← he]; exact List.mem_cons_self _ _))]
    exact hd

theorem dfind?_logosDict_none (plm : AliasMap) (logos : List LogoRecord) (key : SKey)
    (h : key ∉ logos.map (fun l => (l.FileName, l.GroupId))) :
    dfind? (logosDict plm logos) key = none :=
  dfind?_logosDict_aux plm key logos [] h rfl

/-- C1: a shot whose `(FileName, GroupId)` key occurs in no logo record
leaves `process_data` entirely unchanged wherever it sits in the shot list —
the sponsor-stats mapping, the observed-period set, and hence every table
row built from them are identical with and without the orphan shot. -/
theorem C1_orphan_shot_no_effect (pm plm : AliasMap) (doc : InputDoc)
    (pre post : List ShotRecord) (orphan : ShotRecord)
    (h : (orphan.FileName, orphan.GroupId) ∉
      (doc.Logos.getD []).map (fun l => (l.FileName, l.GroupId))) :
    process_data pm plm { doc with Shots := some (pre ++ orphan :: post) } =
        process_data pm plm { doc with Shots := some (pre ++ post) } ∧
      ∀ periods : List Str,
        build_individual_df
            (process_data pm plm { doc with Shots := some (pre ++ orphan :: post) }).1 periods =
          build_individual_df
            (process_data pm plm { doc with Shots := some (pre ++ post) }).1 periods := by
  have hnone : dfind? (logosDict plm (doc.Logos.getD [])) (orphan.FileName, orphan.GroupId) =
      none := dfind?_logosDict_none plm _ _ h
  have hstep : ∀ st, shotStep pm (logosDict plm (doc.Logos.getD [])) st orphan = st := by
    intro st
    unfold shotStep
    rw [hnone]
  have hfold :
      (pre ++ orphan :: post).foldl (shotStep pm (logosDict plm (doc.Logos.getD [])))
          (([], []) : List (SKey × Stats) × List Str) =
        (pre ++ post).foldl (shotStep pm (logosDict plm (doc.Logos.getD [])))
          (([], []) : List (SKey × Stats) × List Str) := by
    rw [List.foldl_append, List.foldl_append, List.foldl_cons, hstep]
  have hmain : process_data pm plm { doc with Shots := some (pre ++ orphan :: post) } =
      process_data pm plm { doc with Shots := some (pre ++ post) } := by
    unfold process_data
    simp only [Option.getD_some]
    rw [hfold]
  exact ⟨hmain, fun periods => by rw [hmain]⟩

/-- Witness for C1: the concrete document `docW` with the orphan shot
`orphanShotW` inserted in front of its real shot. -/
theorem C1_orphan_shot_no_effect_witness :
    ((orphanShotW.FileName, orphanShotW.GroupId) ∉
        (docW.Logos.getD []).map (fun l => (l.FileName, l.GroupId))) ∧
      process_data [] [] { docW with Shots := some ([] ++ orphanShotW :: [shotW]) } =
        process_data [] [] { docW with Shots := some ([] ++ [shotW]) } :=
  ⟨by decide,
    (C1_orphan_shot_no_effect [] [] docW [] [shotW] orphanShotW (by decide)).1⟩

theorem shotStep_empty_logos (pm : AliasMap) (st : List (SKey × Stats) × List Str)
    (shot : ShotRecord) : shotStep pm [] st shot = st := rfl

theorem foldl_shotStep_empty_logos (pm : AliasMap) :
    ∀ (shots : List ShotRecord) (st : List (SKey × Stats) × List Str),
      shots.foldl (shotStep pm []) st = st := by
  intro shots
  induction shots with
  | nil => intro st; rfl
  | cons s rest ih =>
    intro st
    rw [List.foldl_cons, shotStep_empty_logos, ih]

theorem addStats_zero (agg : Stats) : addStats agg zeroStats = agg := by
  cases agg
  simp [addStats, zeroStats]

theorem mem_dset {K V : Type} [DecidableEq K] :
    ∀ (d : List (K × V)) (k : K) (v : V) (e : K × V),
      e ∈ dset d k v → e = (k, v) ∨ e ∈ d := by
  intro d k v e
  induction d with
  | nil =>
    intro h
    rw [dset] at h
    exact Or.inl (List.mem_singleton.1 h)
  | cons x rest ih =>
    intro h
    rw [dset] at h
    by_cases hx : x.1 = k
    · rw [if_pos hx] at h
      rcases List.mem_cons.1 h with h1 | h1
      · exact Or.inl h1
      · exact Or.inr (List.mem_cons_of_mem x h1)
    · rw [if_neg hx] at h
      rcases List.mem_cons.1 h with h1 | h1
      · exact Or.inr (h1 ▸ List.mem_cons_self x rest)
      · rcases ih h1 with h2 | h2
        · exact Or.inl h2
        · exact Or.inr (List.mem_cons_of_mem x h2)

theorem dfind?_all_values {K V : Type} [DecidableEq K] (P : V → Prop) :
    ∀ d : List (K × V), (∀ e ∈ d, P e.2) → ∀ (k : K) (v : V), dfind? d k = some v → P v := by
  intro d
  induction d with
  | nil => intro _ k v h; exact absurd h (by simp [dfind?])
  | cons y ys ih =>
    intro hP k v h
    rw [dfind?] at h
    by_cases hy : y.1 = k
    · rw [if_pos hy] at h
      injection h with h2
      rw [← h2]
      exact hP y (List.mem_cons_self y ys)
    · rw [if_neg hy] at h
      exact ih (fun x hx => hP x (List.mem_cons_of_mem y hx)) k v h

theorem sponsorFold_empty_zero (logosL : List (SKey × Str)) :
    ∀ sp : List ((Str × Str) × Stats), (∀ e ∈ sp, e.2 = zeroStats) →
      ∀ e ∈ logosL.foldl (sponsorFold []) sp, e.2 = zeroStats := by
  induction logosL with
  | nil => intro sp hsp e he; exact hsp e he
  | cons l rest ih =>
    intro sp hsp e he
    rw [List.foldl_cons] at he
    refine ih _ ?_ e he
    intro x hx
    unfold sponsorFold at hx
    rcases mem_dset _ _ _ _ hx with h1 | h1
    · rw [h1]
      show addStats ((dfind? sp (normalize_sponsor l.1.1, l.2)).getD zeroStats)
        ((dfind? ([] : List (SKey × Stats)) l.1).getD zeroStats) = zeroStats

      rw [show (dfind? ([] : List (SKey × Stats)) l.1) = none from rfl, Option.getD_none,
        addStats_zero]
      cases hf : dfind? sp (normalize_sponsor l.1.1, l.2) with
      | none => rfl
      | some v =>
        have hv : v = zeroStats :=
          dfind?_all_values (fun w => w = zeroStats) sp hsp _ v hf
        rw [hv]
        rfl
    · exact hsp x h1

theorem build_individual_all_zero :
    ∀ (stats : List ((Str × Str) × Stats)) (acc : List Row) (periods : List Str),
      (∀ e ∈ stats, e.2.count = 0) →
      stats.foldl
        (fun rows e => if e.2.count = 0 then rows else rows ++ [mkRow periods e]) acc = acc := by
  intro stats
  induction stats with
  | nil => intro acc periods _; rfl
  | cons e rest ih =>
    intro acc periods h
    rw [List.foldl_cons, if_pos (h e (List.mem_cons_self e rest))]
    exact ih acc periods (fun x hx => h x (List.mem_cons_of_mem e hx))

/-- C10: a document with a missing `Logos` or `Shots` key is processed
exactly like one carrying the empty collection: `process_data` returns
normally with an empty (respectively zero-count) sponsor-stats mapping, an
empty period set, and an empty report table, rather than failing. -/
theorem C10_missing_collections (pm plm : AliasMap) (gi : Option Str)
    (lo : Option (List LogoRecord)) (sh : Option (List ShotRecord)) (ps : List Str) :
    process_data pm plm ⟨gi, none, sh⟩ = process_data pm plm ⟨gi, some [], sh⟩ ∧
      process_data pm plm ⟨gi, lo, none⟩ = process_data pm plm ⟨gi, lo, some []⟩ ∧
      process_data pm plm ⟨gi, none, sh⟩ = ([], []) ∧
      (process_data pm plm ⟨gi, lo, none⟩).2 = [] ∧
      (∀ e ∈ (process_data pm plm ⟨gi, lo, none⟩).1, e.2 = zeroStats) ∧
      build_individual_df (process_data pm plm ⟨gi, lo, none⟩).1 ps = [] := by
  refine ⟨rfl, rfl, ?_, rfl, ?_, ?_⟩
  · unfold process_data
    simp only [Option.getD_none]
    rw [show logosDict plm [] = [] from rfl, foldl_shotStep_empty_logos]
    rfl
  · intro e he
    unfold process_data at he
    simp only [Option.getD_none] at he
    exact sponsorFold_empty_zero _ [] (fun x hx => absurd hx (List.not_mem_nil x)) e he
  · refine build_individual_all_zero _ [] ps ?_
    intro e he
    unfold process_data at he
    simp only [Option.getD_none] at he
    have := sponsorFold_empty_zero _ [] (fun x hx => absurd hx (List.not_mem_nil x)) e he
    rw [this]
    rfl

theorem build_individual_foldl_acc (periods : List Str) :
    ∀ (stats : List ((Str × Str) × Stats)) (acc : List Row),
      stats.foldl (fun rows e => if e.2.count = 0 then rows else rows ++ [mkRow periods e]) acc =
        acc ++ stats.foldl
          (fun rows e => if e.2.count = 0 then rows else rows ++ [mkRow periods e]) [] := by
  intro stats
  induction stats with
  | nil => intro acc; simp
  | cons e rest ih =>
    intro acc
    rw [List.foldl_cons, List.foldl_cons]
    by_cases h : e.2.count = 0
    · rw [if_pos h, if_pos h, ih acc]
    · rw [if_neg h, if_neg h, ih (acc ++ [mkRow periods e]), ih ([] ++ [mkRow periods e])]
      simp

theorem build_individual_cons (periods : List Str) (e : (Str × Str) × Stats)
    (rest : List ((Str × Str) × Stats)) :
    build_individual_df (e :: rest) periods =
      (if e.2.count = 0 then [] else [mkRow periods e]) ++ build_individual_df rest periods := by
  unfold build_individual_df
  rw [List.foldl_cons]
  by_cases h : e.2.count = 0
  · rw [if_pos h, if_pos h, List.nil_append]
  · rw [if_neg h, if_neg h, List.nil_append, build_individual_foldl_acc]

theorem dfind?_eq_none_of_not_mem_keys {K V : Type} [DecidableEq K] :
    ∀ (d : List (K × V)) (k : K), k ∉ d.map Prod.fst → dfind? d k = none := by
  intro d
  induction d with
  | nil => intro _ _; rfl
  | cons e rest ih =>
    intro k h
    rw [dfind?, if_neg (fun he => h (by rw [← he]; exact List.mem_cons_self _ _))]
    exact ih k (fun hx => h (List.mem_cons_of_mem _ hx))

theorem countP_row_singleton (periods : List Str) (e : (Str × Str) × Stats) (s p : Str) :
    List.countP (fun r => decide (r.Sponsor = s ∧ r.Placement = p)) [mkRow periods e] =
      if e.1 = (s, p) then 1 else 0 := by
  rw [List.countP_singleton]
  have hsp : ((mkRow periods e).Sponsor = s ∧ (mkRow periods e).Placement = p) ↔
      e.1 = (s, p) := by
    constructor
    · intro ⟨h1, h2⟩
      have h1' : e.1.1 = s := h1
      have h2' : e.1.2 = p := h2
      rw [show e.1 = (e.1.1, e.1.2) from rfl, h1', h2']
    · intro h
      exact ⟨congrArg Prod.fst h, congrArg Prod.snd h⟩
  by_cases he : e.1 = (s, p)
  · rw [if_pos he, if_pos (by simp only [decide_eq_true_eq]; exact hsp.2 he)]
  · rw [if_neg he, if_neg (by simp only [decide_eq_true_eq]; exact fun hx => he (hsp.1 hx))]

theorem countP_build_individual_no_key (periods : List Str) (s p : Str) :
    ∀ stats : List ((Str × Str) × Stats), dfind? stats (s, p) = none →
      List.countP (fun r => decide (r.Sponsor = s ∧ r.Placement = p))
        (build_individual_df stats periods) = 0 := by
  intro stats
  induction stats with
  | nil => intro _; rfl
  | cons e rest ih =>
    intro h
    rw [dfind?] at h
    by_cases he : e.1 = (s, p)
    · rw [if_pos he] at h
      exact absurd h (by simp)
    · rw [if_neg he] at h
      rw [build_individual_cons, List.countP_append, ih h]
      by_cases hc : e.2.count = 0
      · rw [if_pos hc]
        rfl
      · rw [if_neg hc, countP_row_singleton, if_neg he]

theorem dfind?_isSome_dset {K V : Type} [DecidableEq K] (d : List (K × V)) (k k' : K) (v : V)
    (h : (dfind? d k).isSome = true) : (dfind? (dset d k' v) k).isSome = true := by
  by_cases he : k' = k
  · subst he
    rw [dfind?_dset_self]
    rfl
  · rw [dfind?_dset_ne _ _ _ _ he]
    exact h

theorem foldl_sponsorFold_preserves (stats : List (SKey × Stats)) :
    ∀ (l : List (SKey × Str)) (sp : List ((Str × Str) × Stats)) (k : Str × Str),
      (dfind? sp k).isSome = true →
      (dfind? (l.foldl (sponsorFold stats) sp) k).isSome = true := by
  intro l
  induction l with
  | nil => intro sp k h; exact h
  | cons x rest ih =>
    intro sp k h
    rw [List.foldl_cons]
    exact ih _ k (dfind?_isSome_dset _ _ _ _ h)

theorem foldl_sponsorFold_mem (stats : List (SKey × Stats)) :
    ∀ (l : List (SKey × Str)) (sp : List ((Str × Str) × Stats)) (e : SKey × Str), e ∈ l →
      (dfind? (l.foldl (sponsorFold stats) sp) (normalize_sponsor e.1.1, e.2)).isSome = true := by
  intro l
  induction l with
  | nil => intro sp e he; exact absurd he (List.not_mem_nil e)
  | cons x rest ih =>
    intro sp e he
    rw [List.foldl_cons]
    rcases List.mem_cons.1 he with h1 | h1
    · subst h1
      refine foldl_sponsorFold_preserves stats rest _ _ ?_
      show (dfind? (dset sp (normalize_sponsor e.1.1, e.2) _) (normalize_sponsor e.1.1, e.2)).isSome
        = true
      rw [dfind?_dset_self]
      rfl
    · exact ih _ e h1

/-- C9: the per-game table has exactly one row for every sponsor bucket
whose count is positive and no row for a zero-count bucket; and the sponsor
aggregation of `process_data` creates a bucket for every entry of the logo
dict, so a logo with no matching shots yields a (zero-valued) entry that the
table builder then drops. -/
theorem C9_zero_count_rows :
    (∀ (stats : List ((Str × Str) × Stats)) (periods : List Str) (s p : Str),
        (stats.map Prod.fst).Nodup →
        List.countP (fun r => decide (r.Sponsor = s ∧ r.Placement = p))
            (build_individual_df stats periods) =
          (match dfind? stats (s, p) with
           | some agg => if agg.count = 0 then 0 else 1
           | none => 0)) ∧
    (∀ (pm plm : AliasMap) (doc : InputDoc) (e : SKey × Str),
        e ∈ logosDict plm (doc.Logos.getD []) →
        ∃ agg, dfind? (process_data pm plm doc).1 (normalize_sponsor e.1.1, e.2) = some agg) := by
  constructor
  · intro stats
    induction stats with
    | nil => intro periods s p _; rfl
    | cons e rest ih =>
      intro periods s p hnd
      rw [List.map_cons, List.nodup_cons] at hnd
      obtain ⟨hkey, hndr⟩ := hnd
      rw [build_individual_cons, List.countP_append]
      by_cases he : e.1 = (s, p)
      · have hrest : dfind? rest (s, p) = none :=
          dfind?_eq_none_of_not_mem_keys rest (s, p) (he ▸ hkey)
        rw [countP_build_individual_no_key periods s p rest hrest,
          show dfind? (e :: rest) (s, p) = some e.2 from by rw [dfind?, if_pos he]]
        show (List.countP (fun r => decide (r.Sponsor = s ∧ r.Placement = p))
            (if e.2.count = 0 then [] else [mkRow periods e])) + 0 =
          if e.2.count = 0 then 0 else 1
        by_cases hc : e.2.count = 0
        · rw [if_pos hc, if_pos hc]
          rfl
        · rw [if_neg hc, if_neg hc, countP_row_singleton, if_pos he]
      · rw [show dfind? (e :: rest) (s, p) = dfind? rest (s, p) from by rw [dfind?, if_neg he],
          ← ih periods s p hndr]
        by_cases hc : e.2.count = 0
        · rw [if_pos hc]
          simp
        · rw [if_neg hc, countP_row_singleton, if_neg he]
          simp
  · intro pm plm doc e he
    have hsome : (dfind? (process_data pm plm doc).1
        (normalize_sponsor e.1.1, e.2)).isSome = true := by
      unfold process_data
      refine foldl_sponsorFold_mem _ _ _ e he
    rw [Option.isSome_iff_exists] at hsome
    obtain ⟨agg, hagg⟩ := hsome
    exact ⟨agg, hagg⟩

/-- Witness for C9 at the concrete stats dict `statsW` (one counted bucket,
one zero-count bucket) and the concrete document `docW`. -/
theorem C9_zero_count_rows_witness :
    (statsW.map Prod.fst).Nodup ∧
      List.countP (fun r => decide (r.Sponsor = "Pepsi".data ∧ r.Placement = "Main".data))
          (build_individual_df statsW ["1 Top".data]) = 0 ∧
      List.countP (fun r => decide (r.Sponsor = "Nike".data ∧ r.Placement = "LeftBoard".data))
          (build_individual_df statsW ["1 Top".data]) = 1 ∧
      ((("Nike.png".data, (1 : Int)), "LeftBoard".data) ∈ logosDict [] (docW.Logos.getD [])) ∧
      ∃ agg, dfind? (process_data [] [] docW).1
          (normalize_sponsor "Nike.png".data, "LeftBoard".data) = some agg := by
  refine ⟨by decide, ?_, ?_, by decide, ?_⟩
  · rw [C9_zero_count_rows.1 statsW ["1 Top".data] "Pepsi".data "Main".data (by decide)]
    decide
  · rw [C9_zero_count_rows.1 statsW ["1 Top".data] "Nike".data "LeftBoard".data (by decide)]
    decide
  · exact C9_zero_count_rows.2 [] [] docW (("Nike.png".data, (1 : Int)), "LeftBoard".data)
      (by decide)

/-- C6 evidence: an upload whose JSON fails to parse is skipped and later
documents are still processed (second conjunct), but a document that parses
while missing `GameInfo`/`GameId` raises an uncaught `KeyError` that aborts
the whole generate run — no document of the batch produces output (first
conjunct), contradicting the claimed skip-with-warning policy. -/
theorem C6_missing_gameid_aborts :
    generateTables [] [] ["1 Top".data] [Upload.doc brokenDoc, Upload.doc docW] =
        Except.error () ∧
      generateTables [] [] ["1 Top".data] [Upload.badJson, Upload.doc docW] =
        Except.ok [("G_1".data,
          build_individual_df (process_data [] [] docW).1 ["1 Top".data])] :=
  ⟨rfl, rfl⟩

theorem natToCharsGo_small (f m : Nat) (hm : m < 10) (hf : 0 < f) :
    natToCharsGo f m = [digitChar m] := by
  cases f with
  | zero => omega
  | succ f2 => rw [natToCharsGo, if_pos hm]

theorem natToChars_length_small (m : Nat) (hm : m < 10) : (natToChars m).length = 1 := by
  rw [natToChars, natToCharsGo_small _ m hm (by omega)]
  rfl

theorem pad2_length_two (b : Nat) (hb : b < 100) : (pad2 b).length = 2 := by
  unfold pad2
  by_cases h : b < 10
  · rw [if_pos h]
    simp [natToChars_length_small b h]
  · rw [if_neg h, natToChars, natToCharsGo, if_neg h,
      natToCharsGo_small b (b / 10) (by omega) (by omega)]
    rfl

theorem fmt2_nonneg_shape (q : ℚ) (hq : 0 ≤ q) :
    fmt2 q = natToChars ((⌊q * 100 + 1 / 2⌋).toNat / 100) ++ '.' ::
      pad2 ((⌊q * 100 + 1 / 2⌋).toNat % 100) := by
  have h0 : 0 ≤ ⌊q * 100 + 1 / 2⌋ := Int.floor_nonneg.2 (by positivity)
  simp only [fmt2]
  rw [if_neg (by omega)]
  have hab : (⌊q * 100 + 1 / 2⌋).natAbs = (⌊q * 100 + 1 / 2⌋).toNat := by omega
  rw [hab]

theorem dropWhile_all_false {p : Char → Bool} :
    ∀ l : Str, (∀ c ∈ l, p c = false) → l.dropWhile p = l := by
  intro l
  cases l with
  | nil => intro _; rfl
  | cons c rest =>
    intro h
    rw [List.dropWhile_cons_of_neg (by rw [h c (List.mem_cons_self c rest)]; simp)]

theorem stripPct_append_pct (s : Str) (hne : s ≠ []) (h : ∀ c ∈ s, ¬(c = '%')) :
    stripPctChars (s ++ "%".data) = s := by
  cases s with
  | nil => exact absurd rfl hne
  | cons a t =>
    unfold stripPctChars
    have hpa : ((a == '%') = false) := by
      rw [beq_eq_false_iff_ne]
      exact h a (List.mem_cons_self a t)
    rw [List.cons_append, List.dropWhile_cons_of_neg (by rw [hpa]; simp)]
    have hrev : (a :: (t ++ "%".data)).reverse = '%' :: (a :: t).reverse := by
      rw [← List.cons_append, List.reverse_append]
      rfl
    rw [hrev, List.dropWhile_cons_of_pos (by simp),
      dropWhile_all_false ((a :: t).reverse)
        (fun c hc => by
          rw [beq_eq_false_iff_ne]
          exact h c (List.mem_reverse.1 hc)),
      List.reverse_reverse]

theorem fmt2_ne_nil (q : ℚ) (hq : 0 ≤ q) : fmt2 q ≠ [] := by
  rw [fmt2_nonneg_shape q hq]
  exact List.append_ne_nil_of_left_ne_nil (natToChars_ne_nil _) _

theorem fmt2_no_pct (q : ℚ) (hq : 0 ≤ q) : ∀ c ∈ fmt2 q, ¬(c = '%') := by
  rw [fmt2_nonneg_shape q hq]
  intro c hc
  rcases List.mem_append.1 hc with h | h
  · exact isDig_ne_pct (natToChars_digits _ c h)
  · rcases List.mem_cons.1 h with h2 | h2
    · subst h2; decide
    · exact isDig_ne_pct (pad2_digits _ c h2)

theorem parseFloat?_not_dash {s : Str} (h : s.head? ≠ some '-') :
    parseFloat? s = parseUFloat? s := by
  unfold parseFloat?
  split
  · exact absurd rfl h
  · rfl

theorem parseFloat?_fmt2 (q : ℚ) (hq : 0 ≤ q) :
    parseFloat? (stripPctChars (fmt2 q ++ "%".data)) =
      some ((⌊q * 100 + 1 / 2⌋ : ℚ) / 100) := by
  rw [stripPct_append_pct (fmt2 q) (fmt2_ne_nil q hq) (fmt2_no_pct q hq),
    fmt2_nonneg_shape q hq]
  have h0 : 0 ≤ ⌊q * 100 + 1 / 2⌋ := Int.floor_nonneg.2 (by positivity)
  have hdash : (natToChars ((⌊q * 100 + 1 / 2⌋).toNat / 100) ++ '.' ::
      pad2 ((⌊q * 100 + 1 / 2⌋).toNat % 100)).head? ≠ some '-' := by
    cases hs : natToChars ((⌊q * 100 + 1 / 2⌋).toNat / 100) with
    | nil => exact absurd hs (natToChars_ne_nil _)
    | cons c rest =>
      rw [List.cons_append, List.head?_cons]
      intro he
      injection he with he2
      have hd : isDig c = true := natToChars_digits _ c (by rw [hs]; exact List.mem_cons_self _ _)
      subst he2
      exact absurd hd (by decide)
  rw [parseFloat?_not_dash hdash]
  unfold parseUFloat?
  have hsp : splitOnChar '.' (natToChars ((⌊q * 100 + 1 / 2⌋).toNat / 100) ++ '.' ::
      pad2 ((⌊q * 100 + 1 / 2⌋).toNat % 100)) =
      [natToChars ((⌊q * 100 + 1 / 2⌋).toNat / 100), pad2 ((⌊q * 100 + 1 / 2⌋).toNat % 100)] := by
    rw [splitOnChar_sep_append '.' _ _ (fun x hx => isDig_ne_dot (natToChars_digits _ x hx)),
      splitOnChar_no_sep '.' _ (fun x hx => isDig_ne_dot (pad2_digits _ x hx))]
  simp only [hsp]
  rw [parseNat?_natToChars, parseNat?_pad2, pad2_length_two _ (Nat.mod_lt _ (by omega))]
  have h102 : ((10 ^ 2 : Nat) : ℚ) = 100 := by norm_num
  rw [h102]
  conv_rhs => rw [← Int.toNat_of_nonneg h0]
  push_cast
  field_simp
  norm_cast
  omega

theorem sumPct_wf :
    ∀ cells : List Str, (∀ c ∈ cells, ∃ q : ℚ, 0 ≤ q ∧ c = fmt2 q ++ "%".data) →
      sumPct cells = some ((cells.map parsePctD).sum) := by
  intro cells
  induction cells with
  | nil => intro _; simp [sumPct]
  | cons c rest ih =>
    intro h
    obtain ⟨q, hq, hc⟩ := h c (List.mem_cons_self c rest)
    have hp : parseFloat? (stripPctChars c) = some ((⌊q * 100 + 1 / 2⌋ : ℚ) / 100) := by
      rw [hc]
      exact parseFloat?_fmt2 q hq
    rw [sumPct, hp, ih (fun x hx => h x (List.mem_cons_of_mem c hx))]
    have hpd : parsePctD c = (⌊q * 100 + 1 / 2⌋ : ℚ) / 100 := by
      unfold parsePctD
      rw [hp]
      rfl
    rw [List.map_cons, List.sum_cons, hpd]

theorem seqOpt_cons {α : Type} (o : Option α) (rest : List (Option α)) :
    seqOpt (o :: rest) = o.bind (fun v => (seqOpt rest).map (fun l => v :: l)) := rfl

theorem seqOpt_map_some {α β : Type} (f : β → Option α) (g : β → α) :
    ∀ l : List β, (∀ x ∈ l, f x = some (g x)) → seqOpt (l.map f) = some (l.map g) := by
  intro l
  induction l with
  | nil => intro _; rfl
  | cons x rest ih =>
    intro h
    rw [List.map_cons, seqOpt_cons, h x (List.mem_cons_self x rest),
      ih (fun y hy => h y (List.mem_cons_of_mem x hy)), List.map_cons]
    rfl

theorem gameScreenAvg_wf (t : List Row) (pl : Str)
    (h : ∀ r ∈ t, ∃ q : ℚ, 0 ≤ q ∧ r.AvgScreen = fmt2 q ++ "%".data) :
    gameScreenAvg t pl = some (gameScreenMeanD t pl) := by
  unfold gameScreenAvg gameScreenMeanD meanQ
  rw [sumPct_wf _ (fun c hc => by
    obtain ⟨r, hr, hrc⟩ := List.mem_map.1 hc
    obtain ⟨q, hq, hv⟩ := h r (List.mem_of_mem_filter hr)
    exact ⟨q, hq, by rw [← hrc]; exact hv⟩)]
  rw [Option.map_some']
  congr 1
  rw [List.map_map, List.length_map]
  rfl

/-- C2: for every placement, the aggregate `Avg Screen %` cell is the
formatted unweighted mean, over the games containing the placement, of each
game's arithmetic mean of its sponsor rows' screen-percentage cells; shot
counts play no part.  In particular two games with per-game averages 50% and
70% (and very different shot counts) give exactly `60.00%`. -/
theorem C2_agg_screen_mean_of_means :
    (∀ (tables : List (Str × List Row)) (pl : Str),
        screensWF tables →
        gamesWith tables pl ≠ [] →
        aggScreenCell tables pl =
          some (fmt2 (meanQ ((gamesWith tables pl).map (fun t => gameScreenMeanD t pl))) ++
            "%".data)) ∧
      aggScreenCell twoGameTables "1 Top".data = some "60.00%".data := by
  constructor
  · intro tables pl hwf hne
    simp only [aggScreenCell]
    rw [isEmpty_false_of_ne_nil hne]
    simp only [Bool.false_eq_true, if_false]
    rw [seqOpt_map_some (fun t => gameScreenAvg t pl) (fun t => gameScreenMeanD t pl)
      (gamesWith tables pl)
      (fun t ht => by
        refine gameScreenAvg_wf t pl ?_
        have hmem : t ∈ tables.map Prod.snd := List.mem_of_mem_filter ht
        obtain ⟨tb, htb, hts⟩ := List.mem_map.1 hmem
        intro r hr
        exact hwf tb htb r (by rw [hts]; exact hr))]
    rw [Option.map_some']
    unfold meanQ
    rw [List.length_map]
  · decide

/-- Witness for C2 at the two concrete single-row games of
`twoGameTables`. -/
theorem C2_agg_screen_mean_of_means_witness :
    screensWF twoGameTables ∧ gamesWith twoGameTables "1 Top".data ≠ [] ∧
      aggScreenCell twoGameTables "1 Top".data =
        some (fmt2 (meanQ ((gamesWith twoGameTables "1 Top".data).map
          (fun t => gameScreenMeanD t "1 Top".data))) ++ "%".data) := by
  have hwf : screensWF twoGameTables := by
    intro t ht r hr
    simp only [twoGameTables, List.mem_cons, List.not_mem_nil, or_false] at ht
    rcases ht with h1 | h1
    · rw [h1] at hr
      simp only [List.mem_singleton] at hr
      exact ⟨50, by norm_num, by rw [hr]; decide⟩
    · rw [h1] at hr
      simp only [List.mem_singleton] at hr
      exact ⟨70, by norm_num, by rw [hr]; decide⟩
  exact ⟨hwf, by decide,
    C2_agg_screen_mean_of_means.1 twoGameTables "1 Top".data hwf (by decide)⟩

theorem sumMs_wf :
    ∀ cells : List Str, (∀ c ∈ cells, ∃ q : ℚ, 0 ≤ q ∧ c = ms_to_hhmmss q) →
      sumMs cells = some ((cells.map (fun c => (parse_ms c).getD 0)).sum) := by
  intro cells
  induction cells with
  | nil => intro _; simp [sumMs]
  | cons c rest ih =>
    intro h
    obtain ⟨q, hq, hc⟩ := h c (List.mem_cons_self c rest)
    have hp : parse_ms c = some (1000 * (⌈q / 1000⌉).toNat) := by
      rw [hc]
      exact parse_ms_ms_to_hhmmss q hq
    rw [sumMs, hp, ih (fun x hx => h x (List.mem_cons_of_mem c hx)), List.map_cons,
      List.sum_cons, hp]
    rfl

theorem gamePeriodMs_wf (t : List Row) (pl per : Str)
    (h : ∀ r ∈ t, ∀ pz : Str, ∃ q : ℚ, 0 ≤ q ∧ cellOf r pz = ms_to_hhmmss q) :
    gamePeriodMs t pl per = some (gamePeriodD t pl per) := by
  unfold gamePeriodMs gamePeriodD
  rw [sumMs_wf _ (fun c hc => by
    obtain ⟨r, hr, hrc⟩ := List.mem_map.1 hc
    obtain ⟨q, hq, hv⟩ := h r (List.mem_of_mem_filter hr) per
    exact ⟨q, hq, by rw [← hrc]; exact hv⟩)]
  rw [List.map_map]
  rfl

theorem gamePeriodD_zero_of_no_placement (t : List Row) (pl per : Str)
    (h : gameHas t pl = false) : gamePeriodD t pl per = 0 := by
  have hnil : rowsFor t pl = [] := by
    cases hr : rowsFor t pl with
    | nil => rfl
    | cons a b =>
      unfold gameHas at h
      rw [hr] at h
      exact absurd h (by simp)
  unfold gamePeriodD
  rw [hnil]
  rfl

theorem filter_pos_eq (pl per : Str) :
    ∀ tablesL : List (List Row),
      ((tablesL.filter (fun t => gameHas t pl)).map (fun t => gamePeriodD t pl per)).filter
          (fun v => decide (0 < v)) =
        (tablesL.map (fun t => gamePeriodD t pl per)).filter (fun v => decide (0 < v)) := by
  intro tablesL
  induction tablesL with
  | nil => rfl
  | cons t rest ih =>
    rw [List.map_cons, List.filter_cons, List.filter_cons]
    by_cases hg : gameHas t pl = true
    · rw [if_pos hg, List.map_cons, List.filter_cons, ih]
    · have hz : gamePeriodD t pl per = 0 :=
        gamePeriodD_zero_of_no_placement t pl per (by simpa using hg)
      rw [if_neg hg, hz, if_neg (by simp), ih]

/-- C3: for every placement present in at least one game and every period,
the aggregate `Avg <period>` cell is the formatted mean of that period's
per-game accumulated durations taken only over the games whose accumulated
duration is strictly positive; when no game has a positive duration for the
period, the cell is exactly the string `00:00:00` (which is not the empty
string).  The concrete examples exercise both branches. -/
theorem C3_agg_period_positive_only :
    (∀ (tables : List (Str × List Row)) (pl per : Str),
        periodCellsWF tables →
        gamesWith tables pl ≠ [] →
        aggPeriodCell tables pl per =
          some (
            if (((tables.map Prod.snd).map (fun t => gamePeriodD t pl per)).filter
                  (fun v => 0 < v)).isEmpty then
              "00:00:00".data
            else
              ms_to_hhmmss
                (((((tables.map Prod.snd).map (fun t => gamePeriodD t pl per)).filter
                    (fun v => 0 < v)).sum : ℚ) /
                  (((((tables.map Prod.snd).map (fun t => gamePeriodD t pl per)).filter
                    (fun v => 0 < v)).length : Nat) : ℚ)))) ∧
      ("00:00:00".data ≠ ([] : Str)) ∧
      aggPeriodCell twoGameTables "1 Top".data "Q1".data = some "00:00:02".data ∧
      aggPeriodCell twoGameTables "1 Top".data "Q9".data = some "00:00:00".data := by
  refine ⟨?_, by decide, by decide, by decide⟩
  intro tables pl per hwf hne
  simp only [aggPeriodCell]
  rw [isEmpty_false_of_ne_nil hne]
  simp only [Bool.false_eq_true, if_false]
  rw [seqOpt_map_some (fun t => gamePeriodMs t pl per) (fun t => gamePeriodD t pl per)
    (gamesWith tables pl)
    (fun t ht => by
      refine gamePeriodMs_wf t pl per ?_
      have hmem : t ∈ tables.map Prod.snd := List.mem_of_mem_filter ht
      obtain ⟨tb, htb, hts⟩ := List.mem_map.1 hmem
      intro r hr pz
      exact hwf tb htb r (by rw [hts]; exact hr) pz)]
  rw [Option.map_some']
  congr 1
  rw [show gamesWith tables pl = (tables.map Prod.snd).filter (fun t => gameHas t pl) from rfl,
    filter_pos_eq pl per (tables.map Prod.snd)]

/-- Witness for C3 at the two concrete single-row games of
`twoGameTables`. -/
theorem C3_agg_period_positive_only_witness :
    periodCellsWF twoGameTables ∧ gamesWith twoGameTables "1 Top".data ≠ [] ∧
      aggPeriodCell twoGameTables "1 Top".data "Q1".data =
        some (
          if (((twoGameTables.map Prod.snd).map
                (fun t => gamePeriodD t "1 Top".data "Q1".data)).filter
                (fun v => 0 < v)).isEmpty then
            "00:00:00".data
          else
            ms_to_hhmmss
              (((((twoGameTables.map Prod.snd).map
                  (fun t => gamePeriodD t "1 Top".data "Q1".data)).filter
                  (fun v => 0 < v)).sum : ℚ) /
                (((((twoGameTables.map Prod.snd).map
                  (fun t => gamePeriodD t "1 Top".data "Q1".data)).filter
                  (fun v => 0 < v)).length : Nat) : ℚ))) := by
  have hwf : periodCellsWF twoGameTables := by
    intro t ht r hr per
    simp only [twoGameTables, List.mem_cons, List.not_mem_nil, or_false] at ht
    rcases ht with h1 | h1
    · rw [h1] at hr
      simp only [List.mem_singleton] at hr
      subst hr
      by_cases hp : per = "Q1".data
      · subst hp
        exact ⟨2000, by norm_num, by decide⟩
      · refine ⟨0, le_refl 0, ?_⟩
        have hcell : cellOf rowGameA per = [] := by
          unfold cellOf
          rw [show rowGameA.periodCells = [("Q1".data, "00:00:02".data)] from rfl, dfind?,
            if_neg (fun he => hp he.symm), dfind?]
          rfl
        rw [hcell]
        decide
    · rw [h1] at hr
      simp only [List.mem_singleton] at hr
      subst hr
      by_cases hp : per = "Q1".data
      · subst hp
        exact ⟨0, le_refl 0, by decide⟩
      · refine ⟨0, le_refl 0, ?_⟩
        have hcell : cellOf rowGameB per = [] := by
          unfold cellOf
          rw [show rowGameB.periodCells = [("Q1".data, [])] from rfl, dfind?,
            if_neg (fun he => hp he.symm), dfind?]
          rfl
        rw [hcell]
        decide
  exact ⟨hwf, by decide,
    C3_agg_period_positive_only.1 twoGameTables "1 Top".data "Q1".data hwf (by decide)⟩

/-- Witness for C8 at the concrete input 2000 ms. -/
theorem C8_format_parse_roundtrip_witness :
    (∃ k : Nat, (2000 : ℚ) = 1000 * k) ∧
      (parse_ms (ms_to_hhmmss (2000 : ℚ))).map (fun n : Nat => ms_to_hhmmss (n : ℚ)) =
        some (ms_to_hhmmss (2000 : ℚ)) :=
  ⟨⟨2, by norm_num⟩, C8_format_parse_roundtrip 2000 ⟨2, by norm_num⟩⟩

end AppEmbedding
